import Mathlib

/-!
Verification of the python-zlib-ng extension module (`src/zlib_ng/zlib_ngmodule.c`)
against its natural-language specification.

The module's own logic -- the buffer arbiter, the incremental
compress/decompress loops, the gzip container state machine, the seek logic
and the parallel block compressor -- is embedded shallowly below, translated
from the C source.  The external zlib-ng codec primitive (`zng_inflate`,
`zng_deflate`, checksum helpers) is not part of the repository; it is
represented by an executable model codec that obeys the interface contract
the module relies on: an `inflate` step consumes input bytes while output
space remains, reports `Z_STREAM_END` exactly once when the stream's end
marker is consumed, and returns `Z_OK`/`Z_BUF_ERROR` otherwise; a `deflate`
step copies input into the output window and finalizes on `Z_FINISH`.  In
the model codec a compressed stream is its payload (bytes `< 255`) followed
by the end marker byte `255`.  All quantities that are `Py_ssize_t`/`uint32_t`
in C are embedded as `Nat` with the 32-bit windowing (`U32MAX`) kept
explicit exactly where the source applies it.
-/

set_option linter.all false

/-! ## Constants (from zlib_ngmodule.c and zlib.h) -/

def U32MAX : Nat := 4294967295

def DEF_BUF_SIZE : Nat := 16384

def DEF_MAX_INITIAL_BUF_SIZE : Nat := 16 * 1024 * 1024

def PY_SSIZE_T_MAX : Nat := 2 ^ 63 - 1

def Z_NO_FLUSH : Nat := 0

def Z_SYNC_FLUSH : Nat := 2

def Z_FULL_FLUSH : Nat := 3

def Z_FINISH : Nat := 4

/-- Status codes of the raw codec primitive that the module inspects. -/
inductive ZStatus where
  | ok
  | streamEnd
  | bufError
  | streamError
  | needDict
  | memError
  deriving DecidableEq, Repr

/-- Python-level exceptions raised by the module (identified by type and,
where the C code distinguishes messages of the same exception type, by the
message). -/
inductive ZlibExn where
  | valueError
  | memoryError
  | zlibError
  | eofError
  | overflowTooLarge    -- OverflowError "Can only compress ... bytes of data"
  | overflowCapacity    -- OverflowError "Compressed output exceeds buffer size"
  | runtimeResidual     -- RuntimeError "Developer error input bytes are still available"
  | badGzipFile
  | fuelOut             -- out of fuel in the embedding; never occurs in any proved run
  deriving DecidableEq, Repr

instance {ε α : Type} [DecidableEq ε] [DecidableEq α] : DecidableEq (Except ε α) :=
  fun a b =>
    match a, b with
    | .ok x, .ok y => if h : x = y then isTrue (by simp [h]) else isFalse (by simp [h])
    | .error x, .error y =>
      if h : x = y then isTrue (by simp [h]) else isFalse (by simp [h])
    | .ok _, .error _ => isFalse (by simp)
    | .error _, .ok _ => isFalse (by simp)

/-! ## BufferArbiter: `arrange_input_buffer` / `arrange_output_buffer_with_maximum`

`arrange_input_buffer` claims `min(remaining, UINT32_MAX)` bytes for the next
primitive call.  `arrange_output_buffer_with_maximum` embeds the output
buffer as the list of bytes already written (`occupied = written.length`)
plus the current allocated length, which the C keeps in `obuflen`. -/

def arrange_input_buffer (remains : Nat) : Nat × Nat :=
  (min remains U32MAX, remains - min remains U32MAX)

inductive ArrangeOut where
  | exhausted
  | ok (newLength : Nat) (availOut : Nat) (written : List Nat)
  deriving DecidableEq, Repr

def arrange_output_buffer_with_maximum (buffer : Option (List Nat))
    (length max_length : Nat) : ArrangeOut :=
  match buffer with
  | none => .ok length (min length U32MAX) []
  | some w =>
    if length = w.length then
      if length = max_length then .exhausted
      else
        .ok (if length ≤ max_length / 2 then 2 * length else max_length)
          (min ((if length ≤ max_length / 2 then 2 * length else max_length) - w.length)
            U32MAX)
          w
    else .ok length (min (length - w.length) U32MAX) w

/-- The unbounded variant (`max_length = PY_SSIZE_T_MAX`); `.exhausted`
becomes an out-of-memory error at call sites, as in the C wrapper. -/
def arrange_output_buffer (buffer : Option (List Nat)) (length : Nat) : ArrangeOut :=
  arrange_output_buffer_with_maximum buffer length PY_SSIZE_T_MAX

/-! ## Model inflate codec

`inflate_core input availOut` consumes payload bytes (each `< 255`) while
output space remains and returns `(consumed, produced, reachedEnd)`.  The
end marker `255` is consumed as soon as it is reached, independently of the
remaining output space (real zlib may likewise report `Z_STREAM_END` exactly
when the output window fills). -/

def inflate_core : List Nat → Nat → Nat × List Nat × Bool
  | [], _ => (0, [], false)
  | b :: rest, availOut =>
    if b = 255 then (1, [], true)
    else if availOut = 0 then (0, [], false)
    else
      let r := inflate_core rest (availOut - 1)
      (r.1 + 1, b :: r.2.1, r.2.2)

/-- Session state of the model inflate codec: only whether the logical end
of stream has been consumed. -/
structure InfState where
  finished : Bool
  deriving DecidableEq, Repr

/-- One call into the model inflate primitive.  Returns
`(bytesConsumed, bytesProduced, status, newState)`. -/
def model_inflate (st : InfState) (input : List Nat) (availOut : Nat) :
    Nat × List Nat × ZStatus × InfState :=
  if st.finished then (0, [], .streamEnd, st)
  else
    let r := inflate_core input availOut
    if r.2.2 then (r.1, r.2.1, .streamEnd, ⟨true⟩)
    else if r.1 = 0 then (0, [], .bufError, st)
    else (r.1, r.2.1, .ok, st)

/-- The payload a model stream decodes to: its bytes before the first `255`. -/
def payloadOf (l : List Nat) : List Nat := l.takeWhile (fun b => b ≠ 255)

/-- Whether a model stream contains its end marker. -/
def hasMarker (l : List Nat) : Bool := l.any (fun b => b = 255)

/-! ## The `Decompress` object (`compobject` used via `decompressobj()`)

State of `zlib._Decompress` as far as decompression is concerned:
the codec session, `unused_data`, `unconsumed_tail` and `eof`
(fields of `compobject` in the C source). -/

structure DecompSt where
  inf : InfState
  unused_data : List Nat
  unconsumed_tail : List Nat
  eof : Bool
  deriving DecidableEq, Repr

/-- Result of the nested loops of `zlib_Decompress_decompress_impl`:
codec state, `next_in` index into `data`, `zst.avail_in`, the output buffer
(written bytes), the current allocated length, the last codec status, and
whether the loop exited through the `-2` (output cap exhausted) path. -/
structure DDRes where
  inf : InfState
  pos : Nat
  availIn : Nat
  buf : Option (List Nat)
  obuflen : Nat
  err : ZStatus
  capped : Bool
  deriving DecidableEq, Repr

/-- Inner loop of `zlib_Decompress_decompress_impl` (and of the one-shot
`zlib_decompress_impl`): arrange the output buffer, call inflate, repeat
while `zst.avail_out == 0`.  Exits with `capped = true` when
`arrange_output_buffer_with_maximum` returns `-2`. -/
def dd_inner (data : List Nat) (hard : Nat) :
    Nat → InfState → Nat → Nat → Option (List Nat) → Nat → ZStatus → DDRes
  | 0, inf, pos, availIn, buf, obuflen, err =>
    ⟨inf, pos, availIn, buf, obuflen, err, false⟩
  | fuel + 1, inf, pos, availIn, buf, obuflen, err =>
    match arrange_output_buffer_with_maximum buf obuflen hard with
    | .exhausted => ⟨inf, pos, availIn, buf, obuflen, err, true⟩
    | .ok newLen availOut w =>
      let slice := (data.drop pos).take availIn
      let r := model_inflate inf slice availOut
      let c := r.1
      let p := r.2.1
      let st := r.2.2.1
      let inf' := r.2.2.2
      if availOut - p.length = 0 then
        dd_inner data hard fuel inf' (pos + c) (availIn - c) (some (w ++ p)) newLen st
      else
        ⟨inf', pos + c, availIn - c, some (w ++ p), newLen, st, false⟩

/-- Outer loop of `zlib_Decompress_decompress_impl`: claim up to 2^32-1 input
bytes (`arrange_input_buffer`), run the inner loop, repeat while the stream
has not ended and input remains. -/
def dd_outer (data : List Nat) (hard : Nat) :
    Nat → InfState → Nat → Nat → Option (List Nat) → Nat → ZStatus → DDRes
  | 0, inf, pos, ibuflen, buf, obuflen, err =>
    ⟨inf, pos, 0, buf, obuflen, err, false⟩
  | fuel + 1, inf, pos, ibuflen, buf, obuflen, err =>
    let a := arrange_input_buffer ibuflen
    let r := dd_inner data hard (a.1 + 2) inf pos a.1 buf obuflen err
    if r.capped then r
    else if r.err ≠ .streamEnd ∧ a.2 ≠ 0 then
      dd_outer data hard fuel r.inf r.pos a.2 r.buf r.obuflen r.err
    else r

/-- `save_unconsumed_input` (zlib_ngmodule.c): on `Z_STREAM_END` leftover
input is appended to `unused_data` and `avail_in` is zeroed; afterwards, if
input is left or `unconsumed_tail` was non-empty, `unconsumed_tail` is
replaced by the bytes from `next_in` to the end of `data`.
Returns the updated object state and the updated `avail_in`. -/
def save_unconsumed_input (st : DecompSt) (data : List Nat) (pos availIn : Nat)
    (err : ZStatus) : DecompSt × Nat :=
  let s1 :=
    if err = .streamEnd ∧ 0 < availIn then
      ({ st with unused_data := st.unused_data ++ data.drop pos }, 0)
    else (st, availIn)
  if 0 < s1.2 ∨ s1.1.unconsumed_tail ≠ [] then
    ({ s1.1 with unconsumed_tail := data.drop pos }, s1.2)
  else s1

/-- `zlib_Decompress_decompress_impl`: decompress `data` with output capped
at `max_length` (`0` means unbounded).  Returns the produced bytes and the
updated object state. -/
def zlib_Decompress_decompress_impl (st : DecompSt) (data : List Nat)
    (max_length : Int) : Except ZlibExn (List Nat × DecompSt) :=
  if max_length < 0 then .error .valueError
  else
    let maxL := max_length.toNat
    let hard := if maxL = 0 then PY_SSIZE_T_MAX else maxL
    let obuflen0 := if maxL ≠ 0 ∧ maxL < DEF_BUF_SIZE then maxL else DEF_BUF_SIZE
    let r := dd_outer data hard (data.length + 1) st.inf 0 data.length none obuflen0 .ok
    if r.capped ∧ maxL = 0 then .error .memoryError
    else
      let s := save_unconsumed_input st data r.pos r.availIn r.err
      let st' := { s.1 with inf := r.inf }
      if r.err = .streamEnd then
        .ok (r.buf.getD [], { st' with eof := true })
      else if r.err ≠ .ok ∧ r.err ≠ .bufError then .error .zlibError
      else .ok (r.buf.getD [], st')

/-- Repeatedly call `decompress` feeding back the previous call's
`unconsumed_tail`, with the same cap, concatenating the produced bytes;
stops at `eof` (or on an error, which never occurs in the proved runs). -/
def refeed_tail (k : Int) : Nat → DecompSt → List Nat
  | 0, _ => []
  | fuel + 1, st =>
    if st.eof then []
    else
      match zlib_Decompress_decompress_impl st st.unconsumed_tail k with
      | .error _ => []
      | .ok (out, st') => out ++ refeed_tail k fuel st'

/-! ## One-shot `zlib_decompress_impl`

Same nested loops with an unbounded output buffer; a negative `bufsize` is
rejected before the codec session is created, `bufsize = 0` is replaced by
`1`, and a stream that does not reach `Z_STREAM_END` is an error. -/

def zlib_decompress_impl (data : List Nat) (wbits : Int) (bufsize : Int) :
    Except ZlibExn (List Nat) :=
  if bufsize < 0 then .error .valueError
  else
    let bufsize := if bufsize = 0 then 1 else bufsize.toNat
    let r := dd_outer data PY_SSIZE_T_MAX (data.length + 1) ⟨false⟩ 0 data.length
      none bufsize .ok
    if r.capped then .error .memoryError
    else if r.err ≠ .streamEnd then .error .zlibError
    else .ok (r.buf.getD [])

/-! ## The `_ZlibDecompressor` object

`decompress_buf` runs the same kind of nested loops with its own initial
buffer sizing; a `-2` from the output arranger breaks out of the inner loop
(the cap was reached).  `decompress` prepends buffered unconsumed input and
maintains `unused_data`/`needs_input`;
`zlib_ZlibDecompressor_decompress` guards on `eof` first. -/

structure ZlibDecompressorSt where
  inf : InfState
  unused_data : List Nat
  buffered : Option (List Nat)   -- content of input_buffer from next_in on, when in use
  eof : Bool
  needs_input : Bool
  is_initialised : Bool
  deriving DecidableEq, Repr

/-- Outer loop of `decompress_buf`; unlike `dd_outer` the `-2` path only
breaks the inner loop, so the outer condition still decides the exit.
Returns the inner result and the unclaimed `avail_in_real` at exit. -/
def zd_outer (data : List Nat) (hard : Nat) :
    Nat → InfState → Nat → Nat → Option (List Nat) → Nat → ZStatus → DDRes × Nat
  | 0, inf, pos, ibuflen, buf, obuflen, err =>
    (⟨inf, pos, 0, buf, obuflen, err, false⟩, ibuflen)
  | fuel + 1, inf, pos, ibuflen, buf, obuflen, err =>
    let a := arrange_input_buffer ibuflen
    let r := dd_inner data hard (a.1 + 2) inf pos a.1 buf obuflen err
    if r.err ≠ .streamEnd ∧ a.2 ≠ 0 then
      zd_outer data hard fuel r.inf r.pos a.2 r.buf r.obuflen r.err
    else (r, a.2)

/-- `decompress_buf`: decompress `self.avail_in_real` bytes at `next_in`
(passed here as `input`), output capped at `max_length` when non-negative
and below `PY_SSIZE_T_MAX`.  Returns the produced bytes, the updated codec
state together with the `eof`/`is_initialised` effects, the `next_in`
index and the restored `avail_in_real`. -/
def decompress_buf (inf : InfState) (input : List Nat) (max_length : Int) :
    Except ZlibExn (List Nat × InfState × Bool × Nat × Nat) :=
  let hard := if max_length < 0 ∨ max_length = (PY_SSIZE_T_MAX : Int) then PY_SSIZE_T_MAX
    else max_length.toNat
  let obuflen := if max_length < 0 ∨ max_length = (PY_SSIZE_T_MAX : Int) then DEF_BUF_SIZE
    else min max_length.toNat DEF_MAX_INITIAL_BUF_SIZE
  let r := zd_outer input hard (input.length + 1) inf 0 input.length none obuflen .ok
  if r.1.err = .streamEnd then
    .ok (r.1.buf.getD [], ⟨true⟩, true, r.1.pos, r.2 + r.1.availIn)
  else if r.1.err ≠ .ok ∧ r.1.err ≠ .bufError then .error .zlibError
  else .ok (r.1.buf.getD [], r.1.inf, false, r.1.pos, r.2 + r.1.availIn)

/-- The static `decompress` helper of the `_ZlibDecompressor` type: prepends
buffered input, runs `decompress_buf`, then updates `unused_data`,
`needs_input` and the input buffer. -/
def ZlibDecompressor_decompress (self : ZlibDecompressorSt) (data : List Nat)
    (max_length : Int) : Except ZlibExn (List Nat × ZlibDecompressorSt) :=
  let effInput := match self.buffered with
    | some b => b ++ data
    | none => data
  match decompress_buf self.inf effInput max_length with
  | .error e => .error e
  | .ok (out, inf', atEnd, pos, availReal) =>
    let leftover := (effInput.drop pos).take availReal
    let self' := { self with inf := inf',
                             eof := if atEnd then true else self.eof,
                             is_initialised := if atEnd then false else self.is_initialised }
    if self'.eof then
      let self'' := { self' with needs_input := false,
                                 unused_data := if 0 < availReal then leftover
                                   else self'.unused_data }
      .ok (out, self'')
    else if availReal = 0 then
      .ok (out, { self' with buffered := none, needs_input := true })
    else
      .ok (out, { self' with buffered := some leftover, needs_input := false })

/-- `zlib_ZlibDecompressor_decompress`: the method body; raises `EOFError`
when the end of stream was already reached. -/
def zlib_ZlibDecompressor_decompress (self : ZlibDecompressorSt) (data : List Nat)
    (max_length : Int) : Except ZlibExn (List Nat × ZlibDecompressorSt) :=
  if self.eof then .error .eofError
  else ZlibDecompressor_decompress self data max_length

/-! ## Model deflate codec and the `_Compress` object -/

/-- Session state of the model deflate codec: whether the session is live
(`zng_deflateEnd` releases it; calling `zng_deflate` afterwards yields
`Z_STREAM_ERROR`, the documented zlib behaviour on an invalid state). -/
structure DefState where
  alive : Bool
  deriving DecidableEq, Repr

/-- One call into the model deflate primitive: copies input into the output
window; `Z_FINISH` appends the end marker `255` once all input is copied and
reports `Z_STREAM_END`. -/
def model_deflate (st : DefState) (input : List Nat) (availOut : Nat) (mode : Nat) :
    Nat × List Nat × ZStatus × DefState :=
  if st.alive = false then (0, [], .streamError, st)
  else
    let c := min input.length availOut
    let p := input.take availOut
    if mode = Z_FINISH then
      if c = input.length ∧ p.length < availOut then (c, p ++ [255], .streamEnd, st)
      else (c, p, .ok, st)
    else
      if c = 0 ∧ input.length ≠ 0 then (0, [], .bufError, st)
      else (c, p, .ok, st)

/-- `zng_deflateEnd`: releases a live session. -/
def zng_deflateEnd (zst : DefState) : ZStatus × DefState :=
  if zst.alive then (.ok, ⟨false⟩) else (.streamError, zst)

/-- State of `zlib._Compress` as far as compression is concerned. -/
structure CompSt where
  zst : DefState
  is_initialised : Bool
  deriving DecidableEq, Repr

/-- Inner loop of `zlib_Compress_compress_impl`: arrange output, deflate with
`Z_NO_FLUSH`, repeat while `zst.avail_out == 0`. -/
def cc_inner (data : List Nat) :
    Nat → DefState → Nat → Nat → Option (List Nat) → Nat →
    Except ZlibExn (DefState × Nat × Nat × List Nat × Nat)
  | 0, _, _, _, _, _ => .error .fuelOut
  | fuel + 1, zst, pos, availIn, buf, obuflen =>
    match arrange_output_buffer buf obuflen with
    | .exhausted => .error .memoryError
    | .ok newLen availOut w =>
      let r := model_deflate zst ((data.drop pos).take availIn) availOut Z_NO_FLUSH
      if r.2.2.1 = .streamError then .error .zlibError
      else if availOut - r.2.1.length = 0 then
        cc_inner data fuel r.2.2.2 (pos + r.1) (availIn - r.1) (some (w ++ r.2.1)) newLen
      else .ok (r.2.2.2, pos + r.1, availIn - r.1, w ++ r.2.1, newLen)

/-- Outer loop of `zlib_Compress_compress_impl`. -/
def cc_outer (data : List Nat) :
    Nat → DefState → Nat → Nat → Option (List Nat) → Nat →
    Except ZlibExn (DefState × List Nat)
  | 0, _, _, _, _, _ => .error .fuelOut
  | fuel + 1, zst, pos, ibuflen, buf, obuflen =>
    let a := arrange_input_buffer ibuflen
    match cc_inner data (a.1 + 2) zst pos a.1 buf obuflen with
    | .error e => .error e
    | .ok (zst', pos', _, w, newLen) =>
      if a.2 ≠ 0 then cc_outer data fuel zst' pos' a.2 (some w) newLen
      else .ok (zst', w)

/-- `zlib_Compress_compress_impl`: feed `data` through the deflate session
with no flush, growing the output buffer unboundedly. -/
def zlib_Compress_compress_impl (self : CompSt) (data : List Nat) :
    Except ZlibExn (List Nat × CompSt) :=
  match cc_outer data (data.length + 1) self.zst 0 data.length none DEF_BUF_SIZE with
  | .error e => .error e
  | .ok (zst', w) => .ok (w, { self with zst := zst' })

/-- Loop of `zlib_Compress_flush_impl`: `avail_in = 0`, arrange output,
deflate with the given mode, repeat while `zst.avail_out == 0`. -/
def cf_loop (mode : Nat) :
    Nat → DefState → Option (List Nat) → Nat →
    Except ZlibExn (DefState × List Nat × ZStatus)
  | 0, _, _, _ => .error .fuelOut
  | fuel + 1, zst, buf, length =>
    match arrange_output_buffer buf length with
    | .exhausted => .error .memoryError
    | .ok newLen availOut w =>
      let r := model_deflate zst [] availOut mode
      if r.2.2.1 = .streamError then .error .zlibError
      else if availOut - r.2.1.length = 0 then
        cf_loop mode fuel r.2.2.2 (some (w ++ r.2.1)) newLen
      else .ok (r.2.2.2, w ++ r.2.1, r.2.2.1)

/-- `zlib_Compress_flush_impl`: flushing with `Z_NO_FLUSH` is a no-op
returning empty bytes; `Z_FINISH` additionally calls `zng_deflateEnd` and
clears `is_initialised` once the codec reports `Z_STREAM_END`. -/
def zlib_Compress_flush_impl (self : CompSt) (mode : Nat) :
    Except ZlibExn (List Nat × CompSt) :=
  if mode = Z_NO_FLUSH then .ok ([], self)
  else
    match cf_loop mode 8 self.zst none DEF_BUF_SIZE with
    | .error e => .error e
    | .ok (zst', w, err) =>
      if err = .streamEnd ∧ mode = Z_FINISH then
        let e := zng_deflateEnd zst'
        if e.1 ≠ .ok then .error .zlibError
        else .ok (w, ⟨e.2, false⟩)
      else if err ≠ .ok ∧ err ≠ .bufError then .error .zlibError
      else .ok (w, { self with zst := zst' })

/-! ## CRC-32 (the `zng_crc32` collaborator, RFC 1952) -/

/-- One bit step of the reflected CRC-32 with polynomial 0xEDB88320. -/
def crc32_round (c : Nat) : Nat :=
  if c % 2 = 1 then (c / 2) ^^^ 0xEDB88320 else c / 2

/-- Fold one byte into the CRC accumulator. -/
def crc32_update (c b : Nat) : Nat :=
  (List.range 8).foldl (fun acc _ => crc32_round acc) (c ^^^ b % 256)

/-- `crc32 start data`: the CRC-32 of `data` continued from `start`. -/
def crc32 (start : Nat) (data : List Nat) : Nat :=
  (data.foldl crc32_update (start ^^^ 0xFFFFFFFF)) ^^^ 0xFFFFFFFF

/-! ## The `ParallelCompress` object -/

structure ParallelCompressSt where
  buffer_size : Nat
  zst : DefState
  deriving DecidableEq, Repr

/-- `ParallelCompress_compress_and_crc`, with the single `zng_deflate`
(`Z_SYNC_FLUSH`) call abstracted as its outcome
`(bytesConsumed, bytesProduced, status)`: the function's own checks decide
between the overflow (capacity), residual-input and success results. -/
def ParallelCompress_compress_and_crc_core (self : ParallelCompressSt)
    (data zdict : List Nat) (deflateOut : Nat × List Nat × ZStatus) :
    Except ZlibExn (List Nat × Nat) :=
  if U32MAX < data.length + zdict.length then .error .overflowTooLarge
  else
    let crc := crc32 0 data
    if deflateOut.2.2 ≠ .ok then .error .zlibError
    else if self.buffer_size - deflateOut.2.1.length = 0 then .error .overflowCapacity
    else if data.length - deflateOut.1 ≠ 0 then .error .runtimeResidual
    else .ok (deflateOut.2.1, crc)

/-- The `zng_deflate(..., Z_SYNC_FLUSH)` call of `compress_and_crc` made on
the model deflate codec. -/
def model_deflate_sync (zst : DefState) (input : List Nat) (availOut : Nat) :
    Nat × List Nat × ZStatus :=
  let r := model_deflate zst input availOut Z_SYNC_FLUSH
  (r.1, r.2.1, r.2.2.1)

/-- `ParallelCompress_compress_and_crc` on the model deflate codec. -/
def ParallelCompress_compress_and_crc (self : ParallelCompressSt)
    (data zdict : List Nat) : Except ZlibExn (List Nat × Nat) :=
  ParallelCompress_compress_and_crc_core self data zdict
    (model_deflate_sync self.zst data self.buffer_size)

/-! ## The `GzipReader` state machine

The reader's input window is embedded as the byte list
`[current_pos, buffer_end)`; `buffer_size` and the geometric growth of the
owned buffer are kept so that refill sizes match the source.  The raw
(`-MAX_WBITS`) inflate session is the model codec extended with
`total_out`, which `zng_inflateReset` zeroes. -/

inductive GzPhase where
  | HEADER
  | DEFLATE_BLOCK
  | TRAILER
  | NULL_BYTES
  deriving DecidableEq, Repr

def FTEXT : Nat := 1

def FHCRC : Nat := 2

def FEXTRA : Nat := 4

def FNAME : Nat := 8

def FCOMMENT : Nat := 16

structure GzInf where
  finished : Bool
  total_out : Nat
  deriving DecidableEq, Repr

/-- The raw inflate call made by the DEFLATE_BLOCK phase. -/
def model_gz_inflate (st : GzInf) (input : List Nat) (availOut : Nat) :
    Nat × List Nat × ZStatus × GzInf :=
  if st.finished then (0, [], .streamEnd, st)
  else
    let r := inflate_core input availOut
    if r.2.2 then (r.1, r.2.1, .streamEnd, ⟨true, st.total_out + r.2.1.length⟩)
    else if r.1 = 0 then (0, [], .bufError, st)
    else (r.1, r.2.1, .ok, ⟨false, st.total_out + r.2.1.length⟩)

/-- The byte source (`fp` with a `readinto` method). -/
structure FileSt where
  data : List Nat
  fpos : Nat
  deriving DecidableEq, Repr

def file_readinto (fp : FileSt) (n : Nat) : List Nat × FileSt :=
  let bytes := (fp.data.drop fp.fpos).take n
  (bytes, { fp with fpos := fp.fpos + bytes.length })

def file_seek_start (fp : FileSt) : FileSt := { fp with fpos := 0 }

structure GzipReaderSt where
  window : List Nat
  buffer_size : Nat
  all_bytes_read : Bool
  pos : Nat
  size : Option Nat
  stream_phase : GzPhase
  crc : Nat
  last_mtime : Nat
  inf : GzInf
  fp : FileSt
  deriving DecidableEq, Repr

/-- `GzipReader_read_from_file`: double the buffer when it is full, move the
unconsumed window to the front and read into the free space; a zero-byte
read marks the source exhausted. -/
def GzipReader_read_from_file (st : GzipReaderSt) : GzipReaderSt :=
  let remaining := st.window.length
  let bsize := if remaining = st.buffer_size then 2 * st.buffer_size else st.buffer_size
  let r := file_readinto st.fp (bsize - remaining)
  { st with buffer_size := bsize,
            window := st.window ++ r.1,
            all_bytes_read := if r.1.length = 0 then true else st.all_bytes_read,
            fp := r.2 }

def load_u16_le (w : List Nat) : Nat := w.getD 0 0 + 256 * w.getD 1 0

def load_u32_le (w : List Nat) : Nat :=
  w.getD 0 0 + 256 * w.getD 1 0 + 65536 * w.getD 2 0 + 16777216 * w.getD 3 0

inductive FieldScan where
  | suspend
  | ok (hc : Nat)
  deriving DecidableEq, Repr

/-- Skip the FEXTRA field (2-byte little-endian length plus payload); the
source suspends unless the needed bytes end strictly before `buffer_end`. -/
def gz_skip_extra (w : List Nat) (flags hc : Nat) : FieldScan :=
  if flags &&& FEXTRA ≠ 0 then
    if w.length ≤ hc + 2 then .suspend
    else
      let flength := load_u16_le (w.drop hc)
      if w.length ≤ hc + 2 + flength then .suspend
      else .ok (hc + 2 + flength)
  else .ok hc

/-- Skip a null-terminated field (`memchr` for the terminator). -/
def gz_skip_nul (w : List Nat) (hc : Nat) : FieldScan :=
  match (w.drop hc).findIdx? (fun b => b = 0) with
  | none => .suspend
  | some i => .ok (hc + i + 1)

def gz_skip_name (w : List Nat) (flags hc : Nat) : FieldScan :=
  if flags &&& FNAME ≠ 0 then gz_skip_nul w hc else .ok hc

def gz_skip_comment (w : List Nat) (flags hc : Nat) : FieldScan :=
  if flags &&& FCOMMENT ≠ 0 then gz_skip_nul w hc else .ok hc

inductive HcrcScan where
  | suspend
  | fail
  | ok (hc : Nat)
  deriving DecidableEq, Repr

/-- Validate the 16-bit header CRC over the header bytes read so far. -/
def gz_check_hcrc (w : List Nat) (flags hc : Nat) : HcrcScan :=
  if flags &&& FHCRC ≠ 0 then
    if w.length ≤ hc + 2 then .suspend
    else
      let header_crc := load_u16_le (w.drop hc)
      let crc := crc32 0 (w.take hc) &&& 0xFFFF
      if header_crc ≠ crc then .fail
      else .ok (hc + 2)
  else .ok hc

inductive GzHeaderOut where
  | eofDone (st : GzipReaderSt)
  | needInput (st : GzipReaderSt)
  | fail (e : ZlibExn)
  | next (st : GzipReaderSt)
  deriving DecidableEq, Repr

inductive HeaderScan where
  | suspend
  | fail
  | ok (hc : Nat)
  deriving DecidableEq, Repr

/-- The sequence of optional header fields after the fixed 10 bytes: the
extra field, then the null-terminated name, then the null-terminated
comment, then the 16-bit header CRC, each conditional on its flag bit,
exactly in the order of the source. -/
def gz_header_fields (w : List Nat) (flags : Nat) : HeaderScan :=
  match gz_skip_extra w flags 10 with
  | .suspend => .suspend
  | .ok hc1 =>
    match gz_skip_name w flags hc1 with
    | .suspend => .suspend
    | .ok hc2 =>
      match gz_skip_comment w flags hc2 with
      | .suspend => .suspend
      | .ok hc3 =>
        match gz_check_hcrc w flags hc3 with
        | .suspend => .suspend
        | .fail => .fail
        | .ok hc4 => .ok hc4

/-- The HEADER phase of `GzipReader_read_into_buffer`: clean EOF at a member
boundary, suspension below 10 bytes, magic/method validation, the optional
fields in order, then reset of the inflate session and of the running CRC
and the transition to DEFLATE_BLOCK. -/
def gz_header_step (st : GzipReaderSt) : GzHeaderOut :=
  let w := st.window
  if w.length = 0 ∧ st.all_bytes_read then .eofDone { st with size := some st.pos }
  else if w.length < 10 then .needInput st
  else if ¬(w.getD 0 0 = 31 ∧ w.getD 1 0 = 139) then .fail .badGzipFile
  else if w.getD 2 0 ≠ 8 then .fail .badGzipFile
  else
    let flags := w.getD 3 0
    let st1 := { st with last_mtime := load_u32_le (w.drop 4) }
    match gz_header_fields w flags with
    | .suspend => .needInput st1
    | .fail => .fail .badGzipFile
    | .ok hc4 =>
      .next { st1 with window := w.drop hc4, inf := ⟨false, 0⟩, crc := 0,
                       stream_phase := .DEFLATE_BLOCK }

inductive GzTrailerOut where
  | needInput
  | fail (e : ZlibExn)
  | next (st : GzipReaderSt)
  deriving DecidableEq, Repr

/-- The TRAILER phase: with at least 8 bytes, read the little-endian CRC32
and length and compare them with the running CRC and `total_out mod 2^32`. -/
def gz_trailer_step (st : GzipReaderSt) : GzTrailerOut :=
  let w := st.window
  if w.length < 8 then .needInput
  else if load_u32_le w ≠ st.crc then .fail .badGzipFile
  else if load_u32_le (w.drop 4) ≠ st.inf.total_out % 2 ^ 32 then .fail .badGzipFile
  else .next { st with window := w.drop 8, stream_phase := .NULL_BYTES }

inductive GzNullOut where
  | needInput (st : GzipReaderSt)
  | next (st : GzipReaderSt)
  deriving DecidableEq, Repr

/-- The NULL_BYTES phase: skip zero padding; suspend at the window's end,
otherwise go back to HEADER for the next member. -/
def gz_null_step (st : GzipReaderSt) : GzNullOut :=
  let w := st.window.dropWhile (fun b => b = 0)
  if w.isEmpty then .needInput { st with window := [] }
  else .next { st with window := w, stream_phase := .HEADER }

inductive GzDeflOut where
  | again (st : GzipReaderSt)
  | needInput (st : GzipReaderSt)
  | full (st : GzipReaderSt)
  | toTrailer (st : GzipReaderSt)
  | fail (e : ZlibExn)
  deriving DecidableEq, Repr

/-- One inflate round of the DEFLATE_BLOCK phase: feed up to 2^32-1 window
bytes, write into the caller's remaining output space, accumulate the
running CRC and the logical position over the produced bytes. -/
def gz_deflate_step (st : GzipReaderSt) (outRemaining : Nat) : GzDeflOut × List Nat :=
  let availIn := min st.window.length U32MAX
  let availOut := min outRemaining U32MAX
  let r := model_gz_inflate st.inf (st.window.take availIn) availOut
  match r.2.2.1 with
  | .memError => (.fail .memoryError, [])
  | .streamError => (.fail .zlibError, [])
  | .needDict => (.fail .zlibError, [])
  | status =>
    let p := r.2.1
    let st1 := { st with crc := crc32 st.crc p, pos := st.pos + p.length,
                         window := st.window.drop r.1, inf := r.2.2.2 }
    if status ≠ .streamEnd then
      if 0 < outRemaining - p.length then
        if st1.window.isEmpty then (.needInput st1, p) else (.again st1, p)
      else (.full st1, p)
    else (.toTrailer { st1 with stream_phase := .TRAILER }, p)

inductive GzInnerRes where
  | ret (out : List Nat) (st : GzipReaderSt)
  | suspend (out : List Nat) (st : GzipReaderSt)
  | fail (e : ZlibExn)
  deriving DecidableEq, Repr

/-- The inner loop of `GzipReader_read_into_buffer`: drive the phase machine
over the current window until it returns, suspends for a refill, or fails. -/
def gz_inner : Nat → GzipReaderSt → Nat → List Nat → GzInnerRes
  | 0, _, _, _ => .fail .fuelOut
  | fuel + 1, st, outRemaining, acc =>
    match st.stream_phase with
    | .HEADER =>
      match gz_header_step st with
      | .eofDone st' => .ret acc st'
      | .needInput st' => .suspend acc st'
      | .fail e => .fail e
      | .next st' => gz_inner fuel st' outRemaining acc
    | .DEFLATE_BLOCK =>
      let r := gz_deflate_step st outRemaining
      let acc' := acc ++ r.2
      let outRem' := outRemaining - r.2.length
      match r.1 with
      | .fail e => .fail e
      | .again st' => gz_inner fuel st' outRem' acc'
      | .needInput st' => .suspend acc' st'
      | .full st' => .ret acc' st'
      | .toTrailer st' => gz_inner fuel st' outRem' acc'
    | .TRAILER =>
      match gz_trailer_step st with
      | .needInput => .suspend acc st
      | .fail e => .fail e
      | .next st' => gz_inner fuel st' outRemaining acc
    | .NULL_BYTES =>
      match gz_null_step st with
      | .needInput st' => .suspend acc st'
      | .next st' => gz_inner fuel st' outRemaining acc

inductive GzSuspendOut where
  | finishRead (st : GzipReaderSt)
  | eofFail
  | refill
  deriving DecidableEq, Repr

/-- The decision after the inner loop suspends: with the source exhausted, a
suspension at NULL_BYTES is a clean end (the logical size is fixed), any
other phase is an unexpected end of stream; otherwise refill. -/
def gz_suspend_resolution (st : GzipReaderSt) : GzSuspendOut :=
  if st.all_bytes_read then
    if st.stream_phase = .NULL_BYTES then .finishRead { st with size := some st.pos }
    else .eofFail
  else .refill

/-- `GzipReader_read_into_buffer`: the outer refill loop. -/
def GzipReader_read_into_buffer :
    Nat → GzipReaderSt → Nat → List Nat → Except ZlibExn (List Nat × GzipReaderSt)
  | 0, _, _, _ => .error .fuelOut
  | fuel + 1, st, outSize, acc =>
    match gz_inner (2 * st.window.length + outSize + 16) st (outSize - acc.length) acc with
    | .fail e => .error e
    | .ret out st' => .ok (out, st')
    | .suspend out st' =>
      match gz_suspend_resolution st' with
      | .finishRead st'' => .ok (out, st'')
      | .eofFail => .error .eofError
      | .refill => GzipReader_read_into_buffer fuel (GzipReader_read_from_file st') outSize out

/-- `GzipReader_readinto`. -/
def GzipReader_readinto (st : GzipReaderSt) (outSize : Nat) :
    Except ZlibExn (List Nat × GzipReaderSt) :=
  GzipReader_read_into_buffer (st.fp.data.length + 4) st outSize []

/-- The decompress-and-discard loop of `GzipReader_seek`. -/
def gz_discard_loop : Nat → GzipReaderSt → Nat → Except ZlibExn GzipReaderSt
  | 0, _, _ => .error .fuelOut
  | fuel + 1, st, offset =>
    if offset = 0 then .ok st
    else
      match GzipReader_readinto st (min 8192 offset) with
      | .error e => .error e
      | .ok (out, st') =>
        if out.length = 0 then .ok st'
        else gz_discard_loop fuel st' (offset - out.length)

/-- The read-to-the-end loop of `GzipReader_seek` for SEEK_END. -/
def gz_size_loop : Nat → GzipReaderSt → Except ZlibExn GzipReaderSt
  | 0, _ => .error .fuelOut
  | fuel + 1, st =>
    match GzipReader_readinto st 8192 with
    | .error e => .error e
    | .ok (out, st') => if out.length = 0 then .ok st' else gz_size_loop fuel st'

/-- The core of `GzipReader_seek` after the absolute target is known: a
target below the current position rewinds the byte source, sets the phase to
HEADER, zeroes `_pos`, clears `all_bytes_read` and resets the inflate
session (the buffered input window is left as it is, exactly as in the
source); then data is read and discarded up to the target. -/
def GzipReader_seek_core (st : GzipReaderSt) (offset : Int) :
    Except ZlibExn (Int × GzipReaderSt) :=
  let s :=
    if offset < (st.pos : Int) then
      ({ st with fp := file_seek_start st.fp, stream_phase := .HEADER, pos := 0,
                 all_bytes_read := false, inf := ⟨false, 0⟩ }, offset)
    else (st, offset - (st.pos : Int))
  if 0 < s.2 then
    match gz_discard_loop (s.2.toNat + 4) s.1 s.2.toNat with
    | .error e => .error e
    | .ok st' => .ok ((st'.pos : Int), st')
  else .ok ((s.1.pos : Int), s.1)

/-- `GzipReader_seek` with `whence` one of SEEK_SET (0), SEEK_CUR (1),
SEEK_END (2). -/
def GzipReader_seek (st : GzipReaderSt) (offset : Int) (whence : Int) :
    Except ZlibExn (Int × GzipReaderSt) :=
  if whence = 0 then GzipReader_seek_core st offset
  else if whence = 1 then GzipReader_seek_core st ((st.pos : Int) + offset)
  else if whence = 2 then
    match (if st.size = none then gz_size_loop (st.fp.data.length + 8) st
      else .ok st : Except ZlibExn GzipReaderSt) with
    | .error e => .error e
    | .ok st' => GzipReader_seek_core st' ((st'.size.getD 0 : Int) + offset)
  else .error .valueError

/-! ## Concrete gzip scenario for the seek claim -/

def le32_bytes (n : Nat) : List Nat :=
  [n % 256, n / 256 % 256, n / 65536 % 256, n / 16777216 % 256]

/-- A single well-formed gzip member of the model codec: fixed 10-byte
header (magic `1f 8b`, method 8, no flags), the model-compressed body, and
the trailer holding the payload's CRC-32 and length. -/
def gzip_member (payload : List Nat) : List Nat :=
  [31, 139, 8, 0, 0, 0, 0, 0, 0, 0] ++ payload ++ [255]
    ++ le32_bytes (crc32 0 payload) ++ le32_bytes (payload.length % 2 ^ 32)

/-- A fresh streamed-mode reader over the given container bytes. -/
def GzipReader_new_streamed (data : List Nat) (buffersize : Nat) : GzipReaderSt :=
  { window := [], buffer_size := buffersize, all_bytes_read := false, pos := 0,
    size := none, stream_phase := .HEADER, crc := 0, last_mtime := 0,
    inf := ⟨false, 0⟩, fp := ⟨data, 0⟩ }

def c2_payload : List Nat := [1, 2, 3, 4, 5, 6]

/-- Reading the whole stream from the start. -/
def c2_direct : Except ZlibExn (List Nat × GzipReaderSt) :=
  GzipReader_readinto (GzipReader_new_streamed (gzip_member c2_payload) 64) 100

/-- A partial read of 3 bytes from the start. -/
def c2_partial : Except ZlibExn (List Nat × GzipReaderSt) :=
  GzipReader_readinto (GzipReader_new_streamed (gzip_member c2_payload) 64) 3

/-- The partial read followed by `seek(0)` and a read to the end: by the
claim this must yield the full payload again. -/
def c2_after_seek : Except ZlibExn (List Nat × GzipReaderSt) :=
  match c2_partial with
  | .error e => .error e
  | .ok (_, st) =>
    match GzipReader_seek st 0 0 with
    | .error e => .error e
    | .ok (_, st') => GzipReader_readinto st' 100

def exceptBytes (r : Except ZlibExn (List Nat × GzipReaderSt)) : Option (List Nat) :=
  match r with
  | .ok (out, _) => some out
  | .error _ => none

/-- A concrete reader state sitting right before a valid trailer of the
member with payload `[5, 6]`. -/
def c4_st : GzipReaderSt :=
  ⟨le32_bytes (crc32 0 [5, 6]) ++ [2, 0, 0, 0], 8, true, 2, none, .TRAILER,
    crc32 0 [5, 6], 0, ⟨true, 2⟩, ⟨[], 0⟩⟩

/-- A concrete reader state suspended mid-member (TRAILER phase, 2 bytes
buffered) over an exhausted source. -/
def c6_st : GzipReaderSt :=
  ⟨[1, 2], 8, true, 2, none, .TRAILER, 0, 0, ⟨true, 2⟩, ⟨[], 0⟩⟩

/-- A concrete reader state at HEADER whose window starts with a wrong
magic. -/
def c5_bad : GzipReaderSt :=
  ⟨[9, 9, 8, 0, 0, 0, 0, 0, 0, 0], 16, false, 0, none, .HEADER, 0, 0,
    ⟨false, 0⟩, ⟨[], 0⟩⟩

/-- Characterization of one run of the inner decompress loop, in terms of
the payload `R` of the remaining input slice and the output capacity
`cap = hard - w.length` left above the bytes `w` already written:
`t = min R.length cap` bytes are appended, the stream end is reached exactly
when the end marker lies inside the slice and the whole payload fits the
capacity (consuming one extra byte), and the `-2` exit is taken exactly when
the capacity is hit. -/
def DDInnerSpec (data : List Nat) (hard pos availIn : Nat) (w : List Nat)
    (r : DDRes) : Prop :=
  let R := payloadOf ((data.drop pos).take availIn)
  let cap := hard - w.length
  let t := min R.length cap
  r.buf = some (w ++ R.take t)
  ∧ (R.length < availIn ∧ R.length ≤ cap →
      r.pos = pos + t + 1 ∧ r.availIn = availIn - (t + 1)
      ∧ r.err = .streamEnd ∧ r.inf = ⟨true⟩)
  ∧ (¬(R.length < availIn ∧ R.length ≤ cap) →
      r.pos = pos + t ∧ r.availIn = availIn - t
      ∧ (r.err = .ok ∨ r.err = .bufError) ∧ r.inf = ⟨false⟩)
  ∧ (r.capped = true ↔ t = cap)
  ∧ (w.length + t ≤ r.obuflen ∧ r.obuflen ≤ hard ∧ 1 ≤ r.obuflen)
  ∧ (t < R.length → 0 < r.availIn)

/-- Characterization of the outer decompress loop.  Identical to the inner
one except that the input is claimed in chunks of `2^32 - 1` bytes, so the
end marker is additionally missed when it sits exactly at a chunk boundary
at the moment the capacity is hit (`U32MAX ∣ R.length` with
`R.length = cap`), and the reported `avail_in` refers to the current chunk
only. -/
def DDOuterSpec (data : List Nat) (hard pos ibuflen : Nat) (w : List Nat)
    (r : DDRes) : Prop :=
  let R := payloadOf ((data.drop pos).take ibuflen)
  let cap := hard - w.length
  let t := min R.length cap
  r.buf = some (w ++ R.take t)
  ∧ (R.length < ibuflen ∧ R.length ≤ cap
      ∧ (R.length < cap ∨ ¬ (U32MAX ∣ R.length)) →
      r.pos = pos + t + 1 ∧ r.err = .streamEnd ∧ r.inf = ⟨true⟩)
  ∧ (¬(R.length < ibuflen ∧ R.length ≤ cap
      ∧ (R.length < cap ∨ ¬ (U32MAX ∣ R.length))) →
      r.pos = pos + t ∧ (r.err = .ok ∨ r.err = .bufError) ∧ r.inf = ⟨false⟩)
  ∧ (r.capped = true ↔ t = cap)
  ∧ (t < R.length → cap < U32MAX → 0 < r.availIn)
  ∧ r.pos + r.availIn ≤ data.length

-- ===== THEOREMS =====

/-! ## List helper lemmas -/

theorem takeWhile_append_of_all {p : Nat → Bool} {xs : List Nat} (ys : List Nat)
    (h : ∀ x ∈ xs, p x) : (xs ++ ys).takeWhile p = xs ++ ys.takeWhile p := by
  induction xs with
  | nil => simp
  | cons a l ih =>
    have ha : p a := h a (by simp)
    simp only [List.cons_append, List.takeWhile_cons, ha, ite_true]
    rw [ih (fun x hx => h x (by simp [hx]))]

theorem takeWhile_take {p : Nat → Bool} (l : List Nat) (n : Nat) :
    (l.take n).takeWhile p = (l.takeWhile p).take n := by
  induction l generalizing n with
  | nil => simp
  | cons a l ih =>
    cases n with
    | zero => simp
    | succ m =>
      by_cases ha : p a
      · simp [List.takeWhile_cons, ha, ih]
      · simp [List.takeWhile_cons, ha]

theorem takeWhile_drop {p : Nat → Bool} (l : List Nat) (n : Nat)
    (h : n ≤ (l.takeWhile p).length) :
    (l.drop n).takeWhile p = (l.takeWhile p).drop n := by
  induction l generalizing n with
  | nil => simp
  | cons a l ih =>
    cases n with
    | zero => simp
    | succ m =>
      by_cases ha : p a
      · simp only [List.takeWhile_cons, ha, ite_true, List.length_cons] at h ⊢
        simpa using ih m (by omega)
      · simp [List.takeWhile_cons, ha] at h

theorem drop_take_drop (l : List Nat) (m n k : Nat) :
    ((l.drop m).take n).drop k = (l.drop (m + k)).take (n - k) := by
  rw [List.drop_take, List.drop_drop]

theorem length_take_of_le {l : List Nat} {n : Nat} (h : n ≤ l.length) :
    (l.take n).length = n := by
  simp [List.length_take]
  omega

/-! ## C8: output buffer arrangement -/

/--
C8: for a full output buffer (`occupied = L`) under hard cap `M` with
`L ≤ M`: when `L = M` the arrangement returns Exhausted without resizing;
when `L < M` it returns the new length `2L` if `2L ≤ M` and exactly `M`
otherwise, preserving the written bytes (the same list is returned) and
placing the write window right after them (`availOut` spans
`newLength - L`, capped at 2^32-1); and no arrangement under cap `M` ever
returns a length above `M`.
-/
theorem arrange_output_growth (w : List Nat) (L M : Nat)
    (hocc : w.length = L) (hLM : L ≤ M) :
    (L = M → arrange_output_buffer_with_maximum (some w) L M = .exhausted)
    ∧ (L < M →
        arrange_output_buffer_with_maximum (some w) L M
          = .ok (if 2 * L ≤ M then 2 * L else M)
              (min ((if 2 * L ≤ M then 2 * L else M) - L) U32MAX) w
        ∧ (if 2 * L ≤ M then 2 * L else M) ≤ M)
    ∧ (∀ (buffer : Option (List Nat)) (len newLen availOut : Nat) (w0 : List Nat),
        len ≤ M →
        arrange_output_buffer_with_maximum buffer len M = .ok newLen availOut w0 →
        newLen ≤ M) := by
  refine ⟨?_, ?_, ?_⟩
  · intro hLMeq
    simp [arrange_output_buffer_with_maximum, hocc, hLMeq]
  · intro hlt
    have hdiv : (L ≤ M / 2) = (2 * L ≤ M) := by
      by_cases h : 2 * L ≤ M <;> simp [h] <;> omega
    have hne : ¬ L = M := by omega
    constructor
    · simp [arrange_output_buffer_with_maximum, hocc, hne, hdiv]
    · by_cases h : 2 * L ≤ M <;> simp [h] <;> omega
  · intro buffer len newLen availOut w0 hlen harr
    match buffer with
    | none =>
      simp [arrange_output_buffer_with_maximum] at harr
      omega
    | some w1 =>
      simp only [arrange_output_buffer_with_maximum] at harr
      by_cases h1 : len = w1.length
      · rw [if_pos h1] at harr
        by_cases h2 : len = M
        · simp [h2] at harr
        · rw [if_neg h2] at harr
          simp only [ArrangeOut.ok.injEq] at harr
          by_cases h3 : len ≤ M / 2
          · rw [if_pos h3] at harr
            omega
          · rw [if_neg h3] at harr
            omega
      · rw [if_neg h1] at harr
        simp only [ArrangeOut.ok.injEq] at harr
        omega

/-- Witness for C8 at `w = [0,0]`, `L = 2`, `M = 3`. -/
theorem arrange_output_growth_witness :
    arrange_output_buffer_with_maximum (some [0, 0]) 2 3
      = .ok (if 2 * 2 ≤ 3 then 2 * 2 else 3)
          (min ((if 2 * 2 ≤ 3 then 2 * 2 else 3) - 2) U32MAX) [0, 0] :=
  ((arrange_output_growth [0, 0] 2 3 rfl (by decide)).2.1 (by decide)).1

/-! ## Characterization of the model inflate codec -/

/-- Full behaviour of `inflate_core`: writing `R` for the payload of the
slice, the call produces `R.take availOut`; it consumes the end marker
(and one extra byte) exactly when the marker is present and the whole
payload fits the output space. -/
theorem inflate_core_spec (slice : List Nat) : ∀ (availOut : Nat),
    inflate_core slice availOut =
      if (payloadOf slice).length < slice.length ∧ (payloadOf slice).length ≤ availOut
      then ((payloadOf slice).length + 1, (payloadOf slice).take availOut, true)
      else (min (payloadOf slice).length availOut, (payloadOf slice).take availOut, false) := by
  induction slice with
  | nil =>
    intro a
    simp [inflate_core, payloadOf]
  | cons b rest ih =>
    intro a
    by_cases hb : b = 255
    · subst hb
      have hp : payloadOf (255 :: rest) = [] := by simp [payloadOf]
      simp [inflate_core, hp]
    · have hp : payloadOf (b :: rest) = b :: payloadOf rest := by
        simp [payloadOf, List.takeWhile_cons, hb]
      cases a with
      | zero =>
        have hc : ¬((payloadOf (b :: rest)).length < (b :: rest).length
            ∧ (payloadOf (b :: rest)).length ≤ 0) := by
          simp [hp]
        rw [if_neg hc]
        simp [inflate_core, hb, hp]
      | succ n =>
        have hstep : inflate_core (b :: rest) (n + 1)
            = ((inflate_core rest n).1 + 1, b :: (inflate_core rest n).2.1,
               (inflate_core rest n).2.2) := by
          simp [inflate_core, hb]
        rw [hstep, ih n]
        by_cases hcond : (payloadOf rest).length < rest.length ∧ (payloadOf rest).length ≤ n
        · rw [if_pos hcond,
            if_pos (by simp [hp]; omega :
              (payloadOf (b :: rest)).length < (b :: rest).length
              ∧ (payloadOf (b :: rest)).length ≤ n + 1)]
          simp [hp, List.take_succ_cons]
        · rw [if_neg hcond,
            if_neg (by simp [hp]; omega :
              ¬((payloadOf (b :: rest)).length < (b :: rest).length
                ∧ (payloadOf (b :: rest)).length ≤ n + 1))]
          simp [hp, List.take_succ_cons]
          omega

theorem inflate_core_produced_le (slice : List Nat) (a : Nat) :
    (inflate_core slice a).2.1.length ≤ a := by
  rw [inflate_core_spec]
  split <;> simp [List.length_take]

theorem model_inflate_produced_le (st : InfState) (slice : List Nat) (a : Nat) :
    (model_inflate st slice a).2.1.length ≤ a := by
  have hc := inflate_core_produced_le slice a
  unfold model_inflate
  by_cases hf : st.finished = true
  · simp [hf]
  · by_cases he : (inflate_core slice a).2.2 = true
    · simpa [hf, he] using hc
    · by_cases h0 : (inflate_core slice a).1 = 0
      · simp [hf, he, h0]
      · simpa [hf, he, h0] using hc

/-- One unfolding step of the inner loop when the arrangement succeeds. -/
theorem dd_inner_step_ok (data : List Nat) (hard f : Nat) (inf : InfState)
    (pos availIn : Nat) (buf : Option (List Nat)) (obuflen : Nat) (err : ZStatus)
    (L A : Nat) (w : List Nat)
    (harr : arrange_output_buffer_with_maximum buf obuflen hard = .ok L A w) :
    dd_inner data hard (f + 1) inf pos availIn buf obuflen err =
      (if A - (model_inflate inf ((data.drop pos).take availIn) A).2.1.length = 0 then
        dd_inner data hard f (model_inflate inf ((data.drop pos).take availIn) A).2.2.2
          (pos + (model_inflate inf ((data.drop pos).take availIn) A).1)
          (availIn - (model_inflate inf ((data.drop pos).take availIn) A).1)
          (some (w ++ (model_inflate inf ((data.drop pos).take availIn) A).2.1)) L
          (model_inflate inf ((data.drop pos).take availIn) A).2.2.1
      else
        ⟨(model_inflate inf ((data.drop pos).take availIn) A).2.2.2,
          pos + (model_inflate inf ((data.drop pos).take availIn) A).1,
          availIn - (model_inflate inf ((data.drop pos).take availIn) A).1,
          some (w ++ (model_inflate inf ((data.drop pos).take availIn) A).2.1), L,
          (model_inflate inf ((data.drop pos).take availIn) A).2.2.1, false⟩) := by
  simp only [dd_inner, harr]

/-- One unfolding step of the inner loop when the arrangement is exhausted. -/
theorem dd_inner_step_exhausted (data : List Nat) (hard f : Nat) (inf : InfState)
    (pos availIn : Nat) (buf : Option (List Nat)) (obuflen : Nat) (err : ZStatus)
    (harr : arrange_output_buffer_with_maximum buf obuflen hard = .exhausted) :
    dd_inner data hard (f + 1) inf pos availIn buf obuflen err
      = ⟨inf, pos, availIn, buf, obuflen, err, true⟩ := by
  simp only [dd_inner, harr]

/-! ## Buffer-length invariant of the decompress loops -/

theorem arrange_ok_bounds (buffer : Option (List Nat)) (length maxL L A : Nat)
    (w : List Nat) (hlen : length ≤ maxL)
    (hbuf : ∀ w0, buffer = some w0 → w0.length ≤ length)
    (harr : arrange_output_buffer_with_maximum buffer length maxL = .ok L A w) :
    w.length ≤ L ∧ L ≤ maxL ∧ A ≤ L - w.length := by
  match buffer with
  | none =>
    simp only [arrange_output_buffer_with_maximum, ArrangeOut.ok.injEq] at harr
    obtain ⟨h1, h2, h3⟩ := harr
    subst h1
    subst h3
    refine ⟨by simp, hlen, ?_⟩
    simp
    omega
  | some w1 =>
    have hw1 : w1.length ≤ length := hbuf w1 rfl
    simp only [arrange_output_buffer_with_maximum] at harr
    by_cases h1 : length = w1.length
    · rw [if_pos h1] at harr
      by_cases h2 : length = maxL
      · simp [h2] at harr
      · rw [if_neg h2] at harr
        simp only [ArrangeOut.ok.injEq] at harr
        obtain ⟨hL, hA, hw⟩ := harr
        subst hw
        by_cases h3 : length ≤ maxL / 2
        · rw [if_pos h3] at hL hA
          omega
        · rw [if_neg h3] at hL hA
          omega
    · rw [if_neg h1] at harr
      simp only [ArrangeOut.ok.injEq] at harr
      obtain ⟨hL, hA, hw⟩ := harr
      subst hw
      omega

theorem dd_inner_len_inv (data : List Nat) (hard : Nat) :
    ∀ fuel inf pos availIn buf obuflen err,
    (∀ w0, buf = some w0 → w0.length ≤ obuflen) → obuflen ≤ hard →
    (∀ w0, (dd_inner data hard fuel inf pos availIn buf obuflen err).buf = some w0 →
        w0.length ≤ (dd_inner data hard fuel inf pos availIn buf obuflen err).obuflen)
    ∧ (dd_inner data hard fuel inf pos availIn buf obuflen err).obuflen ≤ hard := by
  intro fuel
  induction fuel with
  | zero =>
    intro inf pos availIn buf obuflen err hbuf hlen
    exact ⟨hbuf, hlen⟩
  | succ f ih =>
    intro inf pos availIn buf obuflen err hbuf hlen
    cases harr : arrange_output_buffer_with_maximum buf obuflen hard with
    | exhausted =>
      rw [dd_inner_step_exhausted data hard f inf pos availIn buf obuflen err harr]
      exact ⟨hbuf, hlen⟩
    | ok L A w =>
      rw [dd_inner_step_ok data hard f inf pos availIn buf obuflen err L A w harr]
      obtain ⟨hwL, hLmax, hA⟩ :=
        arrange_ok_bounds buf obuflen hard L A w hlen hbuf harr
      have hplen : (model_inflate inf ((data.drop pos).take availIn) A).2.1.length ≤ A :=
        model_inflate_produced_le inf ((data.drop pos).take availIn) A
      have hnew : (w ++ (model_inflate inf ((data.drop pos).take availIn) A).2.1).length ≤ L := by
        simp only [List.length_append]
        omega
      by_cases hz : A - (model_inflate inf ((data.drop pos).take availIn) A).2.1.length = 0
      · rw [if_pos hz]
        exact ih _ _ _ _ _ _ (fun w0 hw0 => by
          injection hw0 with h
          subst h
          exact hnew) hLmax
      · rw [if_neg hz]
        exact ⟨fun w0 hw0 => by
          injection hw0 with h
          subst h
          exact hnew, hLmax⟩

theorem dd_outer_len_inv (data : List Nat) (hard : Nat) :
    ∀ fuel inf pos ibuflen buf obuflen err,
    (∀ w0, buf = some w0 → w0.length ≤ obuflen) → obuflen ≤ hard →
    (∀ w0, (dd_outer data hard fuel inf pos ibuflen buf obuflen err).buf = some w0 →
        w0.length ≤ hard) := by
  intro fuel
  induction fuel with
  | zero =>
    intro inf pos ibuflen buf obuflen err hbuf hlen w0 hw0
    have := hbuf w0 hw0
    omega
  | succ f ih =>
    intro inf pos ibuflen buf obuflen err hbuf hlen w0 hw0
    rw [dd_outer] at hw0
    set a := arrange_input_buffer ibuflen with ha
    obtain ⟨hi1, hi2⟩ :=
      dd_inner_len_inv data hard (a.1 + 2) inf pos a.1 buf obuflen err hbuf hlen
    set r := dd_inner data hard (a.1 + 2) inf pos a.1 buf obuflen err with hrdef
    by_cases hcap : r.capped
    · rw [if_pos hcap] at hw0
      have := hi1 w0 hw0
      omega
    · rw [if_neg hcap] at hw0
      by_cases hcont : r.err ≠ .streamEnd ∧ a.2 ≠ 0
      · rw [if_pos hcont] at hw0
        exact ih r.inf r.pos a.2 r.buf r.obuflen r.err hi1 hi2 w0 hw0
      · rw [if_neg hcont] at hw0
        have := hi1 w0 hw0
        omega

/-! ## C3: decompressing after end-of-stream -/

/--
C3 (amended): for the `_ZlibDecompressor` type, once `eof` is true every
further `decompress` call raises `EOFError` (the end-of-stream condition).
The `_Decompress` type from `decompressobj()` does not share this behaviour:
it returns empty bytes and stores the data in `unused_data` (see the
counterexample `Decompress_decompress_after_eof_succeeds`).
-/
theorem ZlibDecompressor_decompress_after_eof (self : ZlibDecompressorSt)
    (data : List Nat) (max_length : Int) (h : self.eof = true) :
    zlib_ZlibDecompressor_decompress self data max_length = .error .eofError := by
  simp [zlib_ZlibDecompressor_decompress, h]

/-- Witness for C3 at a concrete finished decompressor. -/
theorem ZlibDecompressor_decompress_after_eof_witness :
    zlib_ZlibDecompressor_decompress ⟨⟨true⟩, [], none, true, false, false⟩ [7] 5
      = .error .eofError :=
  ZlibDecompressor_decompress_after_eof ⟨⟨true⟩, [], none, true, false, false⟩ [7] 5 rfl

/--
Counterexample for C3: the `_Decompress` type (`decompressobj()`), the other
incremental decompressor, does not raise after end-of-stream: with `eof`
already true the call succeeds, returns empty bytes and appends the data to
`unused_data` instead of raising the end-of-stream condition.
-/
theorem Decompress_decompress_after_eof_succeeds :
    zlib_Decompress_decompress_impl ⟨⟨true⟩, [], [], true⟩ [7] 0
      = .ok ([], ⟨⟨true⟩, [7], [], true⟩) := by decide

/-! ## C7: operations after `flush(Z_FINISH)` -/

theorem cc_inner_dead (data : List Nat) (fuel pos availIn obuflen : Nat)
    (h : 1 ≤ fuel) :
    cc_inner data fuel ⟨false⟩ pos availIn none obuflen = .error .zlibError := by
  cases fuel with
  | zero => omega
  | succ f =>
    simp [cc_inner, arrange_output_buffer, arrange_output_buffer_with_maximum,
      model_deflate]

theorem cf_loop_dead (mode fuel length : Nat) (h : 1 ≤ fuel) :
    cf_loop mode fuel ⟨false⟩ none length = .error .zlibError := by
  cases fuel with
  | zero => omega
  | succ f =>
    simp [cf_loop, arrange_output_buffer, arrange_output_buffer_with_maximum,
      model_deflate]

/--
C7 (amended): `flush(Z_FINISH)` on a live compression session finalizes and
releases the codec session (`is_initialised` becomes false), and afterwards
`compress` and `flush` with any mode other than `Z_NO_FLUSH` fail with a
defined error (`Z_STREAM_ERROR` from the released codec session, surfaced as
a zlib error); `flush(Z_NO_FLUSH)`, however, silently returns empty bytes
without touching the session (see the counterexample
`flush_noflush_after_finish_noop`), so the claim's "every non-copy operation
always fails" holds only for the other modes.
-/
theorem Compress_finish_then_fail (st : CompSt) (data : List Nat) (mode : Nat)
    (halive : st.zst.alive = true) :
    zlib_Compress_flush_impl st Z_FINISH = .ok ([255], ⟨⟨false⟩, false⟩)
    ∧ zlib_Compress_compress_impl ⟨⟨false⟩, false⟩ data = .error .zlibError
    ∧ (mode ≠ Z_NO_FLUSH →
        zlib_Compress_flush_impl ⟨⟨false⟩, false⟩ mode = .error .zlibError)
    ∧ zlib_Compress_flush_impl ⟨⟨false⟩, false⟩ Z_NO_FLUSH = .ok ([], ⟨⟨false⟩, false⟩) := by
  obtain ⟨⟨a⟩, ini⟩ := st
  simp only [DefState.alive] at halive
  subst halive
  refine ⟨?_, ?_, ?_, ?_⟩
  · cases ini <;> decide
  · unfold zlib_Compress_compress_impl
    simp only [cc_outer, arrange_input_buffer]
    rw [cc_inner_dead data (min data.length U32MAX + 2) 0 (min data.length U32MAX)
      DEF_BUF_SIZE (by omega)]
  · intro hmode
    unfold zlib_Compress_flush_impl
    rw [if_neg hmode]
    rw [cf_loop_dead mode 8 DEF_BUF_SIZE (by omega)]
  · decide

/-- Witness for C7 at a concrete live session. -/
theorem Compress_finish_then_fail_witness :
    zlib_Compress_flush_impl ⟨⟨true⟩, true⟩ Z_FINISH = .ok ([255], ⟨⟨false⟩, false⟩)
    ∧ zlib_Compress_compress_impl ⟨⟨false⟩, false⟩ [1, 2] = .error .zlibError
    ∧ (Z_SYNC_FLUSH ≠ Z_NO_FLUSH →
        zlib_Compress_flush_impl ⟨⟨false⟩, false⟩ Z_SYNC_FLUSH = .error .zlibError)
    ∧ zlib_Compress_flush_impl ⟨⟨false⟩, false⟩ Z_NO_FLUSH = .ok ([], ⟨⟨false⟩, false⟩) :=
  Compress_finish_then_fail ⟨⟨true⟩, true⟩ [1, 2] Z_SYNC_FLUSH rfl

/--
Counterexample for C7: after `flush(Z_FINISH)` released the session,
`flush(Z_NO_FLUSH)` does not fail: it silently no-ops and returns empty
bytes, contradicting "every non-copy operation (compress, flush) always
fails with a defined error rather than silently succeeding or no-opping".
-/
theorem flush_noflush_after_finish_noop :
    zlib_Compress_flush_impl ⟨⟨true⟩, true⟩ Z_FINISH = .ok ([255], ⟨⟨false⟩, false⟩)
    ∧ zlib_Compress_flush_impl ⟨⟨false⟩, false⟩ Z_NO_FLUSH
        = .ok ([], ⟨⟨false⟩, false⟩) := by decide

/-! ## C9: `ParallelCompress.compress_and_crc` -/

/--
C9 (amended): for a `compress_and_crc` call whose single
`zng_deflate(Z_SYNC_FLUSH)` step returns `(c, p, Z_OK)` (with `c` of the
input consumed and `p` written into the scratch buffer), the call fails with
the capacity error exactly when the scratch buffer is completely full after
the flush -- in particular whenever it fills before all input is consumed,
so input is never silently truncated -- fails with the residual-input error
when the buffer is not full but input remains unconsumed, and otherwise
succeeds returning the sync-flushed bytes together with the CRC-32 of the
input computed from initial value 0.
-/
theorem ParallelCompress_classification (self : ParallelCompressSt)
    (data zdict : List Nat) (c : Nat) (p : List Nat)
    (hsz : data.length + zdict.length ≤ U32MAX)
    (hc : c ≤ data.length) (hp : p.length ≤ self.buffer_size) :
    (ParallelCompress_compress_and_crc_core self data zdict (c, p, .ok)
        = .error .overflowCapacity ↔ p.length = self.buffer_size)
    ∧ (p.length < self.buffer_size → c < data.length →
        ParallelCompress_compress_and_crc_core self data zdict (c, p, .ok)
          = .error .runtimeResidual)
    ∧ (p.length < self.buffer_size → c = data.length →
        ParallelCompress_compress_and_crc_core self data zdict (c, p, .ok)
          = .ok (p, crc32 0 data)) := by
  have hno : ¬ U32MAX < data.length + zdict.length := by omega
  have hcore : ParallelCompress_compress_and_crc_core self data zdict (c, p, .ok)
      = (if self.buffer_size - p.length = 0 then .error .overflowCapacity
         else if data.length - c ≠ 0 then .error .runtimeResidual
         else .ok (p, crc32 0 data)) := by
    simp [ParallelCompress_compress_and_crc_core, hno]
  refine ⟨?_, ?_, ?_⟩
  · rw [hcore]
    by_cases hfull : self.buffer_size - p.length = 0 <;>
      by_cases hres : data.length - c = 0 <;> simp [hfull, hres] <;> omega
  · intro h1 h2
    rw [hcore, if_neg (by omega), if_pos (by omega)]
  · intro h1 h2
    rw [hcore, if_neg (by omega), if_neg (by omega)]

/-- Witness for C9 at a concrete call. -/
theorem ParallelCompress_classification_witness :
    (ParallelCompress_compress_and_crc_core ⟨4, ⟨true⟩⟩ [1, 2] [] (2, [1, 2], .ok)
        = .error .overflowCapacity ↔ ([1, 2] : List Nat).length = 4)
    ∧ (([1, 2] : List Nat).length < 4 → 2 < ([1, 2] : List Nat).length →
        ParallelCompress_compress_and_crc_core ⟨4, ⟨true⟩⟩ [1, 2] [] (2, [1, 2], .ok)
          = .error .runtimeResidual)
    ∧ (([1, 2] : List Nat).length < 4 → 2 = ([1, 2] : List Nat).length →
        ParallelCompress_compress_and_crc_core ⟨4, ⟨true⟩⟩ [1, 2] [] (2, [1, 2], .ok)
          = .ok ([1, 2], crc32 0 [1, 2])) :=
  ParallelCompress_classification ⟨4, ⟨true⟩⟩ [1, 2] [] 2 [1, 2]
    (by decide) (by decide) (by decide)

/--
Counterexample for C9: an exact-fit call -- the model deflate step consumes
all 3 input bytes and the compressed output exactly fills the 3-byte scratch
buffer -- still fails with the capacity error, although the buffer did not
fill "before all input is consumed", so the claim's "exactly when" is wrong
on this boundary.
-/
theorem compress_and_crc_exact_fit_error :
    (model_deflate_sync ⟨true⟩ [1, 2, 3] 3).1 = 3
    ∧ ParallelCompress_compress_and_crc ⟨3, ⟨true⟩⟩ [1, 2, 3] []
        = .error .overflowCapacity := by decide

/-! ## C4: the gzip trailer phase -/

/--
C4: the Trailer phase runs only with at least 8 bytes available (otherwise
it suspends for more input); it reads a little-endian CRC-32 and a
little-endian 32-bit length and fails with the bad-container error exactly
when the stored CRC differs from the CRC accumulated over the member's
decompressed bytes or the stored length differs from the member's total
decompressed byte count modulo 2^32; on a match it consumes the 8 bytes and
transitions to NULL_BYTES (NullPadding).
-/
theorem gzip_trailer_check (st : GzipReaderSt) (member : List Nat)
    (hcrc : st.crc = crc32 0 member) (hlen : st.inf.total_out = member.length) :
    (st.window.length < 8 → gz_trailer_step st = .needInput)
    ∧ (8 ≤ st.window.length →
        ((gz_trailer_step st = .fail .badGzipFile) ↔
          (load_u32_le st.window ≠ crc32 0 member ∨
           load_u32_le (st.window.drop 4) ≠ member.length % 2 ^ 32))
        ∧ (load_u32_le st.window = crc32 0 member →
           load_u32_le (st.window.drop 4) = member.length % 2 ^ 32 →
           gz_trailer_step st
             = .next
               { st with window := st.window.drop 8, stream_phase := .NULL_BYTES })) := by
  constructor
  · intro h
    simp [gz_trailer_step, h]
  · intro h
    have hno : ¬ st.window.length < 8 := by omega
    constructor
    · constructor
      · intro hfail
        by_contra hcon
        push_neg at hcon
        simp [gz_trailer_step, hno, hcrc, hlen, hcon.1, hcon.2] at hfail
      · intro hor
        rcases hor with hb | hb
        · simp [gz_trailer_step, hno, hcrc, hb]
        · by_cases hfirst : load_u32_le st.window = crc32 0 member
          · have hb' := hb
            norm_num at hb'
            simp [gz_trailer_step, hno, hcrc, hlen, hfirst, hb']
          · simp [gz_trailer_step, hno, hcrc, hfirst]
    · intro h1 h2
      simp [gz_trailer_step, hno, hcrc, hlen, h1, h2]

/-- Witness for C4 at a concrete matching trailer. -/
theorem gzip_trailer_check_witness :
    gz_trailer_step c4_st
      = .next
        { c4_st with window := c4_st.window.drop 8, stream_phase := .NULL_BYTES } :=
  ((gzip_trailer_check c4_st [5, 6] rfl rfl).2 (by decide)).2 (by decide) (by decide)

/-! ## C5: the gzip header phase -/

/--
C5: with at least 10 bytes available, the Header phase accepts only when the
magic bytes are `0x1f 0x8b` and the method byte equals 8 (conjunct 1); a
magic or method mismatch is a fatal bad-container failure, never a retryable
suspension (conjuncts 2 and 3); on success the flag-conditional extra field,
null-terminated name, null-terminated comment and 16-bit header CRC were
consumed in exactly that order (conjuncts 4 and 5: the accepted cursor comes
from the chain extra, name, comment, header-CRC), the inflate session is
reset, the running CRC zeroed and the phase advances to DEFLATE_BLOCK; and a
header-CRC mismatch is likewise a fatal bad-container failure (conjuncts 6
and 7).
-/
theorem gzip_header_validation (st : GzipReaderSt) (w : List Nat) (flags : Nat)
    (hwdef : w = st.window) (hfdef : flags = w.getD 3 0) (hw : 10 ≤ w.length) :
    (∀ st', gz_header_step st = .next st' →
        w.getD 0 0 = 31 ∧ w.getD 1 0 = 139 ∧ w.getD 2 0 = 8)
    ∧ (¬(w.getD 0 0 = 31 ∧ w.getD 1 0 = 139) → gz_header_step st = .fail .badGzipFile)
    ∧ (w.getD 0 0 = 31 → w.getD 1 0 = 139 → w.getD 2 0 ≠ 8 →
        gz_header_step st = .fail .badGzipFile)
    ∧ (∀ st', gz_header_step st = .next st' →
        ∃ hc4, gz_header_fields w flags = .ok hc4
          ∧ st' = { st with last_mtime := load_u32_le (w.drop 4),
                            window := w.drop hc4, inf := ⟨false, 0⟩, crc := 0,
                            stream_phase := .DEFLATE_BLOCK })
    ∧ (∀ hc4, gz_header_fields w flags = .ok hc4 →
        ∃ hc1 hc2 hc3,
          gz_skip_extra w flags 10 = .ok hc1
          ∧ gz_skip_name w flags hc1 = .ok hc2
          ∧ gz_skip_comment w flags hc2 = .ok hc3
          ∧ gz_check_hcrc w flags hc3 = .ok hc4)
    ∧ (w.getD 0 0 = 31 → w.getD 1 0 = 139 → w.getD 2 0 = 8 →
        gz_header_fields w flags = .fail → gz_header_step st = .fail .badGzipFile)
    ∧ (∀ hc1 hc2 hc3,
        gz_skip_extra w flags 10 = .ok hc1 →
        gz_skip_name w flags hc1 = .ok hc2 →
        gz_skip_comment w flags hc2 = .ok hc3 →
        gz_check_hcrc w flags hc3 = .fail →
        gz_header_fields w flags = .fail) := by
  subst hwdef
  subst hfdef
  have h0 : ¬(st.window.length = 0 ∧ st.all_bytes_read = true) := by
    intro hc
    omega
  have h10 : ¬ st.window.length < 10 := by omega
  have hstep : gz_header_step st =
      (if ¬(st.window.getD 0 0 = 31 ∧ st.window.getD 1 0 = 139) then .fail .badGzipFile
       else if st.window.getD 2 0 ≠ 8 then .fail .badGzipFile
       else
         match gz_header_fields st.window (st.window.getD 3 0) with
         | .suspend => .needInput { st with last_mtime := load_u32_le (st.window.drop 4) }
         | .fail => .fail .badGzipFile
         | .ok hc4 =>
           .next { st with last_mtime := load_u32_le (st.window.drop 4),
                           window := st.window.drop hc4, inf := ⟨false, 0⟩, crc := 0,
                           stream_phase := .DEFLATE_BLOCK }) := by
    simp only [gz_header_step, if_neg h0, if_neg h10]
  refine ⟨?_, ?_, ?_, ?_, ?_, ?_, ?_⟩
  · intro st' h
    rw [hstep] at h
    by_cases hm : st.window.getD 0 0 = 31 ∧ st.window.getD 1 0 = 139
    · by_cases h8 : st.window.getD 2 0 = 8
      · exact ⟨hm.1, hm.2, h8⟩
      · rw [if_neg (not_not_intro hm), if_pos h8] at h
        simp at h
    · rw [if_pos hm] at h
      simp at h
  · intro hm
    rw [hstep, if_pos hm]
  · intro h31 h139 h8
    rw [hstep, if_neg (not_not_intro ⟨h31, h139⟩), if_pos h8]
  · intro st' h
    rw [hstep] at h
    by_cases hm : st.window.getD 0 0 = 31 ∧ st.window.getD 1 0 = 139
    · by_cases h8 : st.window.getD 2 0 = 8
      · rw [if_neg (not_not_intro hm), if_neg (not_not_intro h8)] at h
        split at h
        next hf => simp at h
        next hf => simp at h
        next hc4 hf =>
          refine ⟨hc4, hf, ?_⟩
          injection h with h2
          exact h2.symm
      · rw [if_neg (not_not_intro hm), if_pos h8] at h
        simp at h
    · rw [if_pos hm] at h
      simp at h
  · intro hc4 h
    unfold gz_header_fields at h
    split at h
    next hext => simp at h
    next hc1 hext =>
      split at h
      next hname => simp at h
      next hc2 hname =>
        split at h
        next hcomm => simp at h
        next hc3 hcomm =>
          split at h
          next hcrc => simp at h
          next hcrc => simp at h
          next hc4' hcrc =>
            injection h with h2
            subst h2
            exact ⟨hc1, hc2, hc3, hext, hname, hcomm, hcrc⟩
  · intro h31 h139 h8 hffail
    rw [hstep, if_neg (not_not_intro ⟨h31, h139⟩), if_neg (not_not_intro h8), hffail]
  · intro hc1 hc2 hc3 hext hname hcomm hcrcfail
    simp only [gz_header_fields, hext, hname, hcomm, hcrcfail]

/-- Witness for C5 at a concrete window with a wrong magic byte. -/
theorem gzip_header_validation_witness :
    gz_header_step c5_bad = .fail .badGzipFile :=
  (gzip_header_validation c5_bad c5_bad.window (c5_bad.window.getD 3 0) rfl rfl
    (by decide)).2.1 (by decide)

/-! ## C6: source exhaustion mid-member -/

/--
C6: when the byte source is exhausted (`all_bytes_read`) and the machine has
suspended for more input, reading fails with the unexpected-end-of-stream
error (`EOFError`) in every phase except NULL_BYTES; a suspension at the
clean NULL_BYTES terminal ends the read normally and fixes the final
logical size, and an exhaustion exactly at a member boundary (HEADER phase
with an empty window) likewise ends the read normally with the size fixed.
-/
theorem gzip_unexpected_eof (st : GzipReaderSt)
    (hread : st.all_bytes_read = true) :
    (st.stream_phase ≠ .NULL_BYTES → gz_suspend_resolution st = .eofFail)
    ∧ (st.stream_phase = .NULL_BYTES →
        gz_suspend_resolution st = .finishRead { st with size := some st.pos })
    ∧ (st.stream_phase = .HEADER → st.window = [] →
        gz_header_step st = .eofDone { st with size := some st.pos })
    ∧ (∀ fuel outSize acc out st',
        gz_inner (2 * st.window.length + outSize + 16) st (outSize - acc.length) acc
          = .suspend out st' →
        st'.all_bytes_read = true → st'.stream_phase ≠ .NULL_BYTES →
        GzipReader_read_into_buffer (fuel + 1) st outSize acc = .error .eofError) := by
  refine ⟨?_, ?_, ?_, ?_⟩
  · intro hph
    simp [gz_suspend_resolution, hread, hph]
  · intro hph
    simp [gz_suspend_resolution, hread, hph]
  · intro hph hw
    simp [gz_header_step, hw, hread]
  · intro fuel outSize acc out st' hinner hread' hph
    simp only [GzipReader_read_into_buffer, hinner]
    simp [gz_suspend_resolution, hread', hph]

/-- Witness for C6: a reader suspended in the TRAILER phase of an exhausted
source errors out; presented through the theorem at a concrete state. -/
theorem gzip_unexpected_eof_witness :
    gz_suspend_resolution c6_st = .eofFail
    ∧ GzipReader_read_into_buffer 3 c6_st 5 [] = .error .eofError := by
  refine ⟨(gzip_unexpected_eof c6_st rfl).1 (by decide), ?_⟩
  exact (gzip_unexpected_eof c6_st rfl).2.2.2 2 5 [] [] c6_st (by decide) rfl (by decide)

/-! ## C1 counterexample -/

/--
Counterexample for C1: after a capped call left `unconsumed_tail = [3, 255]`,
a `decompress(b'', 2)` call clears the tail and produces nothing, and the
resulting state is a fixed point of further empty-input calls with the same
cap (third conjunct), so repeated calls with empty input never produce the
missing byte `3`: the full output `[1, 2, 3]` is never reconstructed.
-/
theorem decompress_empty_refeed_stalls :
    zlib_Decompress_decompress_impl ⟨⟨false⟩, [], [], false⟩ [1, 2, 3, 255] 2
      = .ok ([1, 2], ⟨⟨false⟩, [], [3, 255], false⟩)
    ∧ zlib_Decompress_decompress_impl ⟨⟨false⟩, [], [3, 255], false⟩ [] 2
      = .ok ([], ⟨⟨false⟩, [], [], false⟩)
    ∧ zlib_Decompress_decompress_impl ⟨⟨false⟩, [], [], false⟩ [] 2
      = .ok ([], ⟨⟨false⟩, [], [], false⟩) := by decide

/-! ## C2: seek followed by read -/

set_option maxRecDepth 8000

/--
C2 (code bug): the gzip stream `gzip_member [1,2,3,4,5,6]` is valid --
reading it from position 0 yields exactly `[1,2,3,4,5,6]` (first conjunct)
and a partial read yields its first 3 bytes (second conjunct) -- yet reading
3 bytes, seeking back to offset 0 and reading again raises the bad-container
error instead of returning the full payload: the backward-seek path rewinds
the byte source and resets the state machine but leaves the already-buffered
input window in place, so the replay parses stale mid-stream bytes as a
member header.  This contradicts the claim (and spec), under which seeking
to any offset in `[0, S]` and reading to the end must equal reading from 0
and slicing.
-/
theorem GzipReader_seek_stale_window :
    exceptBytes c2_direct = some [1, 2, 3, 4, 5, 6]
    ∧ exceptBytes c2_partial = some [1, 2, 3]
    ∧ c2_after_seek = .error .badGzipFile := by decide

/-! ## Characterization of the nested decompress loops -/

theorem take_append_len (xs ys : List Nat) (n : Nat) :
    (xs ++ ys).take (xs.length + n) = xs ++ ys.take n := by
  rw [List.take_add]
  simp

theorem payload_take (l : List Nat) (n : Nat) :
    payloadOf (l.take n) = (payloadOf l).take n := by
  unfold payloadOf
  exact takeWhile_take l n

theorem payload_drop (l : List Nat) (n : Nat)
    (h : n ≤ (payloadOf l).length) :
    payloadOf (l.drop n) = (payloadOf l).drop n := by
  unfold payloadOf at h ⊢
  exact takeWhile_drop l n h

theorem payload_shift (data : List Nat) (pos availIn c0 : Nat)
    (h : c0 ≤ (payloadOf ((data.drop pos).take availIn)).length) :
    payloadOf ((data.drop (pos + c0)).take (availIn - c0))
      = (payloadOf ((data.drop pos).take availIn)).drop c0 := by
  rw [← drop_take_drop data pos availIn c0]
  exact payload_drop _ c0 h

theorem payload_len_le (l : List Nat) (n : Nat) :
    (payloadOf (l.take n)).length ≤ n := by
  rw [payload_take]
  exact le_trans (List.length_take_le n _) le_rfl

theorem inf_eq_false {inf : InfState} (h : inf.finished = false) :
    inf = ⟨false⟩ := by
  cases inf
  simpa using h

/-- At entry of an inner-loop iteration with space left under the cap, the
output arrangement succeeds, hands back the written bytes, and opens a
window of `min (L - w.length) U32MAX` bytes for some `w.length < L ≤ hard`. -/
theorem arrange_entry (buf : Option (List Nat)) (w : List Nat)
    (obuflen hard : Nat)
    (hbuf : buf = none ∧ w = [] ∨ buf = some w)
    (hwo : w.length ≤ obuflen) (hoh : obuflen ≤ hard) (h1 : 1 ≤ obuflen)
    (hwh : w.length < hard) :
    ∃ L, arrange_output_buffer_with_maximum buf obuflen hard
        = .ok L (min (L - w.length) U32MAX) w ∧ w.length < L ∧ L ≤ hard := by
  rcases hbuf with ⟨hb, hw⟩ | hb
  · subst hb
    subst hw
    refine ⟨obuflen, ?_, by simpa using h1, hoh⟩
    simp [arrange_output_buffer_with_maximum]
  · subst hb
    by_cases hfull : obuflen = w.length
    · have hne : ¬ obuflen = hard := by omega
      refine ⟨if obuflen ≤ hard / 2 then 2 * obuflen else hard, ?_, ?_, ?_⟩
      · simp only [arrange_output_buffer_with_maximum, if_pos hfull, if_neg hne]
      · by_cases h : obuflen ≤ hard / 2 <;> simp [h] <;> omega
      · by_cases h : obuflen ≤ hard / 2 <;> simp [h] <;> omega
    · refine ⟨obuflen, ?_, by omega, hoh⟩
      simp only [arrange_output_buffer_with_maximum, if_neg hfull]

/-- Entering the inner loop with a finished codec session: if the buffer is
full to the hard cap the `-2` exit is taken immediately; otherwise the
buffer is grown once, the codec reports `Z_STREAM_END` again producing
nothing, and the loop exits. -/
theorem dd_inner_finished (data : List Nat) (hard f : Nat) (inf : InfState)
    (pos availIn : Nat) (w : List Nat) (obuflen : Nat) (err : ZStatus)
    (hfin : inf.finished = true) (hocc : w.length ≤ obuflen)
    (hlen : obuflen ≤ hard) (h1 : 1 ≤ obuflen) :
    (w.length = hard →
      dd_inner data hard (f + 1) inf pos availIn (some w) obuflen err
        = ⟨inf, pos, availIn, some w, obuflen, err, true⟩)
    ∧ (w.length < hard →
      ∃ L, dd_inner data hard (f + 1) inf pos availIn (some w) obuflen err
          = ⟨inf, pos, availIn, some w, L, .streamEnd, false⟩
        ∧ w.length < L ∧ L ≤ hard) := by
  constructor
  · intro hwh
    have e1 : obuflen = w.length := by omega
    have e2 : obuflen = hard := by omega
    have harr : arrange_output_buffer_with_maximum (some w) obuflen hard
        = .exhausted := by
      simp only [arrange_output_buffer_with_maximum]
      rw [if_pos e1, if_pos e2]
    rw [dd_inner_step_exhausted data hard f inf pos availIn (some w) obuflen err harr]
  · intro hwh
    obtain ⟨L, harr, hwL, hLh⟩ :=
      arrange_entry (some w) w obuflen hard (Or.inr rfl) hocc hlen h1 hwh
    rw [dd_inner_step_ok data hard f inf pos availIn (some w) obuflen err L
      (min (L - w.length) U32MAX) w harr]
    have hmi : model_inflate inf ((data.drop pos).take availIn)
        (min (L - w.length) U32MAX) = (0, [], .streamEnd, inf) := by
      simp [model_inflate, hfin]
    rw [hmi]
    have hA1 : 1 ≤ min (L - w.length) U32MAX := by
      have hu : U32MAX = 4294967295 := rfl
      omega
    rw [if_neg (by simp; omega)]
    exact ⟨L, by simp, hwL, hLh⟩

/-- Shape of one model inflate call on a live session with a non-empty
output window: stream end with the payload (marker within reach), buffer
error on an exhausted slice, or plain progress. -/
theorem model_inflate_spec (inf : InfState) (slice : List Nat) (A : Nat)
    (hfin : inf.finished = false) (hA1 : 1 ≤ A) :
    ((payloadOf slice).length < slice.length ∧ (payloadOf slice).length ≤ A →
      model_inflate inf slice A
        = ((payloadOf slice).length + 1, payloadOf slice, .streamEnd, ⟨true⟩))
    ∧ (¬((payloadOf slice).length < slice.length ∧ (payloadOf slice).length ≤ A) →
       (payloadOf slice).length = 0 →
      model_inflate inf slice A = (0, [], .bufError, inf))
    ∧ (¬((payloadOf slice).length < slice.length ∧ (payloadOf slice).length ≤ A) →
       1 ≤ (payloadOf slice).length →
      model_inflate inf slice A
        = (min (payloadOf slice).length A, (payloadOf slice).take A, .ok, inf)) := by
  refine ⟨?_, ?_, ?_⟩
  · intro hc
    have hcore : inflate_core slice A
        = ((payloadOf slice).length + 1, (payloadOf slice).take A, true) := by
      rw [inflate_core_spec, if_pos hc]
    rw [List.take_of_length_le hc.2] at hcore
    simp [model_inflate, hfin, hcore]
  · intro hc h0
    have hcore : inflate_core slice A
        = (min (payloadOf slice).length A, (payloadOf slice).take A, false) := by
      rw [inflate_core_spec, if_neg hc]
    have hnil : payloadOf slice = [] := List.length_eq_zero.mp h0
    rw [hnil] at hcore
    simp only [List.length_nil, List.take_nil] at hcore
    have hmin : min 0 A = 0 := by omega
    rw [hmin] at hcore
    simp [model_inflate, hfin, hcore]
  · intro hc h1
    have hcore : inflate_core slice A
        = (min (payloadOf slice).length A, (payloadOf slice).take A, false) := by
      rw [inflate_core_spec, if_neg hc]
    have hne : ¬ ((min (payloadOf slice).length A) = 0) := by omega
    simp [model_inflate, hfin, hcore, hne]

/-- Full characterization of the inner decompress loop: it satisfies
`DDInnerSpec` whenever it is entered on a live session with output space
left under the hard cap and enough fuel (the fuel argument used by the
callers, `availIn + 2`, always suffices). -/
theorem dd_inner_spec (data : List Nat) (hard : Nat) :
    ∀ fuel (inf : InfState) (pos availIn : Nat) (buf : Option (List Nat))
      (obuflen : Nat) (err : ZStatus) (w : List Nat),
    buf = none ∧ w = [] ∨ buf = some w →
    inf.finished = false →
    w.length < hard →
    w.length ≤ obuflen → obuflen ≤ hard → 1 ≤ obuflen →
    pos + availIn ≤ data.length →
    availIn + 2 ≤ fuel →
    DDInnerSpec data hard pos availIn w
      (dd_inner data hard fuel inf pos availIn buf obuflen err) := by
  intro fuel
  induction fuel with
  | zero =>
    intro inf pos availIn buf obuflen err w hbuf hfin hwh hwo hoh h1 hin hfuel
    exact absurd hfuel (by omega)
  | succ f ih =>
    intro inf pos availIn buf obuflen err w hbuf hfin hwh hwo hoh h1 hin hfuel
    obtain ⟨L, harr, hwL, hLh⟩ := arrange_entry buf w obuflen hard hbuf hwo hoh h1 hwh
    rw [dd_inner_step_ok data hard f inf pos availIn buf obuflen err L
      (min (L - w.length) U32MAX) w harr]
    have hu : U32MAX = 4294967295 := rfl
    obtain ⟨A, hA⟩ : ∃ A, min (L - w.length) U32MAX = A := ⟨_, rfl⟩
    rw [hA]
    obtain ⟨R, hR⟩ : ∃ R, payloadOf ((data.drop pos).take availIn) = R := ⟨_, rfl⟩
    have hA1 : 1 ≤ A := by omega
    have hALw : A ≤ L - w.length := by omega
    have hslen : ((data.drop pos).take availIn).length = availIn := by
      rw [List.length_take, List.length_drop]
      omega
    have hRle := payload_len_le (data.drop pos) availIn
    rw [hR] at hRle
    have hmis := model_inflate_spec inf ((data.drop pos).take availIn) A hfin hA1
    rw [hR, hslen] at hmis
    by_cases hM : R.length < availIn ∧ R.length ≤ A
    · -- the end marker is reached within the output window
      rw [hmis.1 hM]
      dsimp only
      by_cases hAe : A = R.length
      · -- the payload exactly fills the window: one more loop round
        have hc0 : A - R.length = 0 := by omega
        rw [if_pos hc0]
        obtain ⟨f', rfl⟩ : ∃ f', f = f' + 1 := ⟨f - 1, by omega⟩
        have hoccR : (w ++ R).length ≤ L := by
          simp only [List.length_append]
          omega
        have hfd := dd_inner_finished data hard f' ⟨true⟩ (pos + (R.length + 1))
          (availIn - (R.length + 1)) (w ++ R) L .streamEnd rfl hoccR hLh (by omega)
        have hlwR2 : w.length + R.length ≤ L := by
          simpa using hoccR
        by_cases hwhard : (w ++ R).length = hard
        · rw [hfd.1 hwhard]
          have hlwR : w.length + R.length = hard := by
            simpa using hwhard
          simp only [DDInnerSpec]
          rw [hR]
          refine ⟨?_, ?_, ?_, ?_, ?_, ?_⟩
          · have ht : min R.length (hard - w.length) = R.length := by omega
            rw [ht, List.take_length]
          · intro hre
            exact ⟨by omega, by omega, trivial, trivial⟩
          · intro hnr
            exact absurd ⟨hM.1, by omega⟩ hnr
          · exact ⟨fun _ => by omega, fun _ => trivial⟩
          · omega
          · intro hlt
            exact absurd hlt (by omega)
        · have hlwR : w.length + R.length < hard := by
            simp only [List.length_append] at hwhard
            omega
          obtain ⟨L₂, heq, hL2a, hL2b⟩ := hfd.2 (by simp only [List.length_append]; omega)
          rw [heq]
          have hL2a' : w.length + R.length < L₂ := by
            simpa using hL2a
          simp only [DDInnerSpec]
          rw [hR]
          refine ⟨?_, ?_, ?_, ?_, ?_, ?_⟩
          · have ht : min R.length (hard - w.length) = R.length := by omega
            rw [ht, List.take_length]
          · intro hre
            exact ⟨by omega, by omega, trivial, trivial⟩
          · intro hnr
            exact absurd ⟨hM.1, by omega⟩ hnr
          · exact ⟨fun h => by simp at h, fun ht => absurd ht (by omega)⟩
          · omega
          · intro hlt
            exact absurd hlt (by omega)
      · -- marker consumed with space to spare: the loop exits at once
        have hc0 : ¬ (A - R.length = 0) := by omega
        rw [if_neg hc0]
        have hRcap : R.length < hard - w.length := by omega
        simp only [DDInnerSpec]
        rw [hR]
        refine ⟨?_, ?_, ?_, ?_, ?_, ?_⟩
        · have ht : min R.length (hard - w.length) = R.length := by omega
          rw [ht, List.take_length]
        · intro hre
          exact ⟨by omega, by omega, trivial, trivial⟩
        · intro hnr
          exact absurd ⟨hM.1, by omega⟩ hnr
        · exact ⟨fun h => by simp at h, fun ht => absurd ht (by omega)⟩
        · omega
        · intro hlt
          exact absurd hlt (by omega)
    · by_cases hR0 : R.length = 0
      · -- the input slice is exhausted: Z_BUF_ERROR right away
        have hav : availIn = 0 := by
          rcases Nat.eq_zero_or_pos availIn with h | h
          · exact h
          · exact absurd ⟨by omega, by omega⟩ hM
        rw [hmis.2.1 hM hR0]
        dsimp only
        simp only [List.length_nil, Nat.sub_zero]
        rw [if_neg (by omega : ¬ A = 0)]
        have hro : R = [] := List.length_eq_zero.mp hR0
        simp only [DDInnerSpec]
        rw [hR]
        refine ⟨?_, ?_, ?_, ?_, ?_, ?_⟩
        · rw [hro]
          simp
        · intro hre
          exact absurd hre.1 (by omega)
        · intro hnr
          exact ⟨by omega, by omega, Or.inr trivial, inf_eq_false hfin⟩
        · exact ⟨fun h => by simp at h, fun ht => absurd ht (by omega)⟩
        · omega
        · intro hlt
          exact absurd hlt (by omega)
      · rw [hmis.2.2 hM (by omega)]
        dsimp only
        simp only [List.length_take]
        by_cases hAR : A ≤ R.length
        · -- the window fills completely: one more loop round
          have hc0 : A - min A R.length = 0 := by omega
          rw [if_pos hc0]
          have hcA : min R.length A = A := by omega
          rw [hcA]
          have hTA : (R.take A).length = A := length_take_of_le (by omega)
          by_cases hAcapEq : A = hard - w.length
          · -- the hard cap is hit exactly: the next arrangement exits with -2
            obtain ⟨f', rfl⟩ : ∃ f', f = f' + 1 := ⟨f - 1, by omega⟩
            have hLhard : L = hard := by omega
            have he1 : L = (w ++ R.take A).length := by
              simp only [List.length_append, hTA]
              omega
            have harr2 : arrange_output_buffer_with_maximum
                (some (w ++ R.take A)) L hard = .exhausted := by
              simp only [arrange_output_buffer_with_maximum]
              rw [if_pos he1, if_pos hLhard]
            rw [dd_inner_step_exhausted data hard f' inf (pos + A) (availIn - A)
              (some (w ++ R.take A)) L .ok harr2]
            simp only [DDInnerSpec]
            rw [hR]
            refine ⟨?_, ?_, ?_, ?_, ?_, ?_⟩
            · have ht : min R.length (hard - w.length) = A := by omega
              rw [ht]
            · intro hre
              exact absurd ⟨hre.1, by omega⟩ hM
            · intro hnr
              exact ⟨by omega, by omega, Or.inl trivial, inf_eq_false hfin⟩
            · exact ⟨fun _ => by omega, fun _ => trivial⟩
            · omega
            · intro hlt
              omega
          · -- strictly below the cap: recurse via the induction hypothesis
            have hIH := ih inf (pos + A) (availIn - A) (some (w ++ R.take A)) L .ok
              (w ++ R.take A) (Or.inr rfl) hfin
              (by simp only [List.length_append, hTA]; omega)
              (by simp only [List.length_append, hTA]; omega)
              hLh (by omega) (by omega) (by omega)
            have hshift := payload_shift data pos availIn A (by rw [hR]; omega)
            rw [hR] at hshift
            simp only [DDInnerSpec] at hIH ⊢
            rw [hR]
            rw [hshift] at hIH
            simp only [List.length_append, List.length_drop, hTA] at hIH
            obtain ⟨hI1, hI2, hI3, hI4, hI5, hI6⟩ := hIH
            refine ⟨?_, ?_, ?_, ?_, ?_, ?_⟩
            · rw [hI1]
              have ht : min R.length (hard - w.length)
                  = A + min (R.length - A) (hard - (w.length + A)) := by omega
              rw [ht, List.take_add, ← List.append_assoc]
            · intro hre
              obtain ⟨hp, ha, he, hi⟩ := hI2 ⟨by omega, by omega⟩
              exact ⟨by omega, by omega, he, hi⟩
            · intro hnr
              have hnr' : ¬(R.length - A < availIn - A
                  ∧ R.length - A ≤ hard - (w.length + A)) := by
                intro hre'
                exact hnr ⟨by omega, by omega⟩
              obtain ⟨hp, ha, he, hi⟩ := hI3 hnr'
              exact ⟨by omega, by omega, he, hi⟩
            · rw [hI4]
              omega
            · omega
            · intro hlt
              exact hI6 (by omega)
        · -- all input payload fits: the loop exits with Z_OK
          have hc0 : ¬ (A - min A R.length = 0) := by omega
          rw [if_neg hc0]
          have hcA : min R.length A = R.length := by omega
          rw [hcA, List.take_of_length_le (by omega : R.length ≤ A)]
          simp only [DDInnerSpec]
          rw [hR]
          have hrav : ¬ (R.length < availIn) := fun hlt => hM ⟨hlt, by omega⟩
          refine ⟨?_, ?_, ?_, ?_, ?_, ?_⟩
          · have ht : min R.length (hard - w.length) = R.length := by omega
            rw [ht, List.take_length]
          · intro hre
            exact absurd hre.1 hrav
          · intro hnr
            exact ⟨by omega, by omega, Or.inl trivial, inf_eq_false hfin⟩
          · exact ⟨fun h => by simp at h, fun ht => absurd ht (by omega)⟩
          · omega
          · intro hlt
            exact absurd hlt (by omega)

/-- One unfolding step of the outer decompress loop. -/
theorem dd_outer_step (data : List Nat) (hard f : Nat) (inf : InfState)
    (pos ibuflen : Nat) (buf : Option (List Nat)) (obuflen : Nat)
    (err : ZStatus) :
    dd_outer data hard (f + 1) inf pos ibuflen buf obuflen err =
      (if (dd_inner data hard (min ibuflen U32MAX + 2) inf pos
            (min ibuflen U32MAX) buf obuflen err).capped then
        dd_inner data hard (min ibuflen U32MAX + 2) inf pos
          (min ibuflen U32MAX) buf obuflen err
      else if (dd_inner data hard (min ibuflen U32MAX + 2) inf pos
            (min ibuflen U32MAX) buf obuflen err).err ≠ .streamEnd
          ∧ ibuflen - min ibuflen U32MAX ≠ 0 then
        dd_outer data hard f
          (dd_inner data hard (min ibuflen U32MAX + 2) inf pos
            (min ibuflen U32MAX) buf obuflen err).inf
          (dd_inner data hard (min ibuflen U32MAX + 2) inf pos
            (min ibuflen U32MAX) buf obuflen err).pos
          (ibuflen - min ibuflen U32MAX)
          (dd_inner data hard (min ibuflen U32MAX + 2) inf pos
            (min ibuflen U32MAX) buf obuflen err).buf
          (dd_inner data hard (min ibuflen U32MAX + 2) inf pos
            (min ibuflen U32MAX) buf obuflen err).obuflen
          (dd_inner data hard (min ibuflen U32MAX + 2) inf pos
            (min ibuflen U32MAX) buf obuflen err).err
      else
        dd_inner data hard (min ibuflen U32MAX + 2) inf pos
          (min ibuflen U32MAX) buf obuflen err) := by
  simp only [dd_outer, arrange_input_buffer]

set_option maxHeartbeats 2000000

/-- Full characterization of the outer decompress loop under the fuel used
by its callers (`data.length + 1` at top level). -/
theorem dd_outer_spec (data : List Nat) (hard : Nat) :
    ∀ fuel (inf : InfState) (pos ibuflen : Nat) (buf : Option (List Nat))
      (obuflen : Nat) (err : ZStatus) (w : List Nat),
    buf = none ∧ w = [] ∨ buf = some w →
    inf.finished = false →
    w.length < hard →
    w.length ≤ obuflen → obuflen ≤ hard → 1 ≤ obuflen →
    pos + ibuflen ≤ data.length →
    ibuflen + 1 ≤ fuel →
    err = .ok ∨ err = .bufError →
    DDOuterSpec data hard pos ibuflen w
      (dd_outer data hard fuel inf pos ibuflen buf obuflen err) := by
  intro fuel
  induction fuel with
  | zero =>
    intro inf pos ibuflen buf obuflen err w hbuf hfin hwh hwo hoh h1 hin hfuel herr
    exact absurd hfuel (by omega)
  | succ f ih =>
    intro inf pos ibuflen buf obuflen err w hbuf hfin hwh hwo hoh h1 hin hfuel herr
    rw [dd_outer_step data hard f inf pos ibuflen buf obuflen err]
    have hu : U32MAX = 4294967295 := rfl
    obtain ⟨A₁, hA1e⟩ : ∃ x, min ibuflen U32MAX = x := ⟨_, rfl⟩
    rw [hA1e]
    obtain ⟨r₁, hr₁⟩ : ∃ r, dd_inner data hard (A₁ + 2) inf pos A₁ buf obuflen err
        = r := ⟨_, rfl⟩
    rw [hr₁]
    have hspec₁ := dd_inner_spec data hard (A₁ + 2) inf pos A₁ buf obuflen err w
      hbuf hfin hwh hwo hoh h1 (by omega) (by omega)
    rw [hr₁] at hspec₁
    obtain ⟨P, hP⟩ : ∃ P, payloadOf (data.drop pos) = P := ⟨_, rfl⟩
    have hPT : payloadOf ((data.drop pos).take A₁) = P.take A₁ := by
      rw [payload_take, hP]
    have hPTg : payloadOf ((data.drop pos).take ibuflen) = P.take ibuflen := by
      rw [payload_take, hP]
    simp only [DDInnerSpec] at hspec₁
    rw [hPT] at hspec₁
    simp only [List.length_take] at hspec₁
    obtain ⟨hs1, hs2, hs3, hs4, hs5, hs6⟩ := hspec₁
    simp only [DDOuterSpec]
    rw [hPTg]
    simp only [List.length_take]
    by_cases hcap : r₁.capped = true
    · -- the -2 exit was taken: the loop returns at once
      rw [if_pos hcap]
      have ht₁cap : min (min A₁ P.length) (hard - w.length) = hard - w.length :=
        hs4.mp hcap
      by_cases hre₁ : min A₁ P.length < A₁ ∧ min A₁ P.length ≤ hard - w.length
      · -- the chunk also reached the stream end: both exits coincide
        obtain ⟨hp, ha, he, hi⟩ := hs2 hre₁
        refine ⟨?_, ?_, ?_, ?_, ?_, ?_⟩
        · rw [hs1, List.take_take, List.take_take]
          have hm : min (min (min A₁ P.length) (hard - w.length)) A₁
              = min (min (min ibuflen P.length) (hard - w.length)) ibuflen := by
            omega
          rw [hm]
        · intro hg
          exact ⟨by omega, he, hi⟩
        · intro hng
          exfalso
          apply hng
          refine ⟨by omega, by omega, ?_⟩
          right
          intro hd
          rw [hu] at hd
          omega
        · exact ⟨fun _ => by omega, fun _ => hcap⟩
        · intro hlt hcu
          omega
        · omega
      · -- the cap was hit with unread input left in the chunk
        obtain ⟨hp, ha, herr₁, hi⟩ := hs3 hre₁
        refine ⟨?_, ?_, ?_, ?_, ?_, ?_⟩
        · rw [hs1, List.take_take, List.take_take]
          have hm : min (min (min A₁ P.length) (hard - w.length)) A₁
              = min (min (min ibuflen P.length) (hard - w.length)) ibuflen := by
            omega
          rw [hm]
        · intro hg
          exfalso
          obtain ⟨hg1, hg2, hg3⟩ := hg
          rcases hg3 with h3 | h3
          · omega
          · apply h3
            rw [hu]
            omega
        · intro hng
          exact ⟨by omega, herr₁, hi⟩
        · exact ⟨fun _ => by omega, fun _ => hcap⟩
        · intro hlt hcu
          omega
        · omega
    · rw [if_neg hcap]
      have hncap : ¬ (min (min A₁ P.length) (hard - w.length) = hard - w.length) :=
        fun h => hcap (hs4.mpr h)
      by_cases hcont : r₁.err ≠ .streamEnd ∧ ibuflen - A₁ ≠ 0
      · -- more input waits beyond this chunk: the loop goes round again
        rw [if_pos hcont]
        have hA1u32 : A₁ = U32MAX := by omega
        have hnr₁ : ¬ (min A₁ P.length < A₁
            ∧ min A₁ P.length ≤ hard - w.length) :=
          fun hre => hcont.1 (hs2 hre).2.2.1
        obtain ⟨hp, ha, herr₁, hi⟩ := hs3 hnr₁
        have hPA : A₁ ≤ P.length := by omega
        have hAcap : A₁ < hard - w.length := by omega
        have hppos : r₁.pos = pos + A₁ := by omega
        have hbuf' : r₁.buf = some (w ++ P.take A₁) := by
          rw [hs1, List.take_take]
          have hm : min (min (min A₁ P.length) (hard - w.length)) A₁ = A₁ := by
            omega
          rw [hm]
        have hIH := ih r₁.inf r₁.pos (ibuflen - A₁) r₁.buf r₁.obuflen r₁.err
          (w ++ P.take A₁) (Or.inr hbuf') (by rw [hi])
          (by simp only [List.length_append, List.length_take]; omega)
          (by simp only [List.length_append, List.length_take]; omega)
          hs5.2.1 hs5.2.2 (by omega) (by omega) herr₁
        rw [hppos] at hIH ⊢
        have hRbig : A₁ ≤ (payloadOf ((data.drop pos).take ibuflen)).length := by
          rw [hPTg, List.length_take]
          omega
        have hshift := payload_shift data pos ibuflen A₁ hRbig
        rw [hPTg] at hshift
        simp only [DDOuterSpec] at hIH
        rw [hshift] at hIH
        simp only [List.length_append, List.length_take, List.length_drop] at hIH
        obtain ⟨hI1, hI2, hI3, hI4, hI5, hI6⟩ := hIH
        have hu32A : A₁ = 4294967295 := by omega
        refine ⟨?_, ?_, ?_, ?_, ?_, ?_⟩
        · rw [hI1]
          have ht : min (min ibuflen P.length) (hard - w.length)
              = A₁ + min (min ibuflen P.length - A₁)
                  (hard - (w.length + min A₁ P.length)) := by
            omega
          rw [ht, List.take_add, ← List.append_assoc]
          have hm : (P.take ibuflen).take A₁ = P.take A₁ := by
            rw [List.take_take]
            have : min A₁ ibuflen = A₁ := by omega
            rw [this]
          rw [hm]
        · intro hg
          have hre' : min ibuflen P.length - A₁ < ibuflen - A₁
              ∧ min ibuflen P.length - A₁ ≤ hard - (w.length + min A₁ P.length)
              ∧ (min ibuflen P.length - A₁ < hard - (w.length + min A₁ P.length)
                 ∨ ¬ (U32MAX ∣ (min ibuflen P.length - A₁))) := by
            refine ⟨by omega, by omega, ?_⟩
            rcases hg.2.2 with h3 | h3
            · left
              omega
            · right
              intro hd
              apply h3
              rw [hu] at hd ⊢
              omega
          obtain ⟨hp', he', hi'⟩ := hI2 hre'
          exact ⟨by omega, he', hi'⟩
        · intro hng
          have hng' : ¬ (min ibuflen P.length - A₁ < ibuflen - A₁
              ∧ min ibuflen P.length - A₁ ≤ hard - (w.length + min A₁ P.length)
              ∧ (min ibuflen P.length - A₁ < hard - (w.length + min A₁ P.length)
                 ∨ ¬ (U32MAX ∣ (min ibuflen P.length - A₁)))) := by
            intro hre'
            apply hng
            refine ⟨by omega, by omega, ?_⟩
            rcases hre'.2.2 with h3 | h3
            · left
              omega
            · right
              intro hd
              apply h3
              rw [hu] at hd ⊢
              omega
          obtain ⟨hp', he', hi'⟩ := hI3 hng'
          exact ⟨by omega, he', hi'⟩
        · rw [hI4]
          omega
        · intro hlt hcu
          exact hI5 (by omega) (by omega)
        · exact hI6
      · rw [if_neg hcont]
        by_cases herr₁ : r₁.err = .streamEnd
        · -- the stream end was reached inside this chunk
          have hre₁ : min A₁ P.length < A₁
              ∧ min A₁ P.length ≤ hard - w.length := by
            by_contra hnr
            rcases (hs3 hnr).2.2.1 with h | h
            · rw [h] at herr₁
              exact ZStatus.noConfusion herr₁
            · rw [h] at herr₁
              exact ZStatus.noConfusion herr₁
          obtain ⟨hp, ha, he, hi⟩ := hs2 hre₁
          refine ⟨?_, ?_, ?_, ?_, ?_, ?_⟩
          · rw [hs1, List.take_take, List.take_take]
            have hm : min (min (min A₁ P.length) (hard - w.length)) A₁
                = min (min (min ibuflen P.length) (hard - w.length)) ibuflen := by
              omega
            rw [hm]
          · intro hg
            exact ⟨by omega, he, hi⟩
          · intro hng
            exfalso
            apply hng
            refine ⟨by omega, by omega, ?_⟩
            left
            omega
          · exact ⟨fun h => absurd h hcap, fun ht => absurd ht (by omega)⟩
          · intro hlt hcu
            omega
          · omega
        · -- the whole input was claimed and the stream did not end
          have hib0 : ibuflen - A₁ = 0 := by
            by_contra h0
            exact hcont ⟨herr₁, h0⟩
          have hA1ib : A₁ = ibuflen := by omega
          have hnr₁ : ¬ (min A₁ P.length < A₁
              ∧ min A₁ P.length ≤ hard - w.length) :=
            fun hre => herr₁ (hs2 hre).2.2.1
          obtain ⟨hp, ha, herr', hi⟩ := hs3 hnr₁
          refine ⟨?_, ?_, ?_, ?_, ?_, ?_⟩
          · rw [hs1, List.take_take, List.take_take]
            have hm : min (min (min A₁ P.length) (hard - w.length)) A₁
                = min (min (min ibuflen P.length) (hard - w.length)) ibuflen := by
              omega
            rw [hm]
          · intro hg
            exfalso
            exact hnr₁ ⟨by omega, by omega⟩
          · intro hng
            exact ⟨by omega, herr', hi⟩
          · constructor
            · intro h
              exact absurd h hcap
            · intro ht
              exact absurd (hs4.mpr (by omega)) hcap
          · intro hlt hcu
            exact hs6 (by omega)
          · omega

/-- `refeed_tail` produces nothing once `eof` is set. -/
theorem refeed_eof (k : Int) (n : Nat) (st : DecompSt) (h : st.eof = true) :
    refeed_tail k n st = [] := by
  cases n with
  | zero => rfl
  | succ m => simp [refeed_tail, h]

/-- One `decompress(data, k)` call on a live `Decompress` object with
`0 < k < 2^32 - 1` and a complete stream in `data`: it returns the payload
capped at `k` bytes; if the whole payload fits, `eof` is set, and otherwise
the object is unchanged except that the bytes from index `k` on are stored
in `unconsumed_tail`. -/
theorem decompress_call_spec (st : DecompSt) (data : List Nat) (k : Nat)
    (h1 : 1 ≤ k) (hku : k < U32MAX)
    (hinf : st.inf = InfState.mk false)
    (hmark : (payloadOf data).length < data.length) :
    ∃ st', zlib_Decompress_decompress_impl st data (k : Int)
        = .ok ((payloadOf data).take (min (payloadOf data).length k), st')
      ∧ ((payloadOf data).length ≤ k → st'.eof = true)
      ∧ (k < (payloadOf data).length →
          st'.eof = st.eof ∧ st'.inf = InfState.mk false
          ∧ st'.unconsumed_tail = data.drop k
          ∧ st'.unused_data = st.unused_data) := by
  have hu : U32MAX = 4294967295 := rfl
  have hdb : DEF_BUF_SIZE = 16384 := rfl
  have hknn : ¬ ((k : Int) < 0) := by omega
  have hk0 : ¬ (k = 0) := by omega
  simp only [zlib_Decompress_decompress_impl]
  rw [if_neg hknn]
  simp only [Int.toNat_natCast]
  rw [if_neg hk0]
  obtain ⟨ob, hob⟩ : ∃ x, (if k ≠ 0 ∧ k < DEF_BUF_SIZE then k else DEF_BUF_SIZE)
      = x := ⟨_, rfl⟩
  rw [hob]
  have hob1 : 1 ≤ ob ∧ ob ≤ k := by
    by_cases hc : k ≠ 0 ∧ k < DEF_BUF_SIZE
    · rw [if_pos hc] at hob
      omega
    · rw [if_neg hc] at hob
      omega
  obtain ⟨r, hr⟩ : ∃ r, dd_outer data k (data.length + 1) st.inf 0 data.length
      none ob .ok = r := ⟨_, rfl⟩
  rw [hr]
  have houter := dd_outer_spec data k (data.length + 1) st.inf 0 data.length
    none ob .ok [] (Or.inl ⟨rfl, rfl⟩) (by rw [hinf]) (by simpa using h1)
    (by simp) hob1.2 hob1.1 (by omega) (by omega) (Or.inl rfl)
  rw [hr] at houter
  simp only [DDOuterSpec] at houter
  have hdd : (data.drop 0).take data.length = data := by simp
  rw [hdd] at houter
  simp only [List.nil_append, List.length_nil, Nat.sub_zero, Nat.zero_add] at houter
  obtain ⟨Q, hQ⟩ : ∃ Q, payloadOf data = Q := ⟨_, rfl⟩
  rw [hQ] at houter hmark ⊢
  obtain ⟨ho1, ho2, ho3, ho4, ho5, ho6⟩ := houter
  have hreachIff : (Q.length < data.length ∧ Q.length ≤ k
      ∧ (Q.length < k ∨ ¬ (U32MAX ∣ Q.length))) ↔ Q.length ≤ k := by
    constructor
    · intro h
      exact h.2.1
    · intro h
      refine ⟨hmark, h, ?_⟩
      by_cases hlt : Q.length < k
      · exact Or.inl hlt
      · right
        intro hd
        rw [hu] at hd
        omega
  rw [if_neg (fun h => absurd h.2 hk0 :
    ¬ (r.capped = true ∧ k = 0))]
  by_cases hQk : Q.length ≤ k
  · obtain ⟨hpos, herr, hinf'⟩ := ho2 (hreachIff.mpr hQk)
    rw [if_pos herr, ho1]
    exact ⟨_, rfl, fun _ => rfl, fun hlt => absurd hlt (by omega)⟩
  · have hnre := fun h => hQk (hreachIff.mp h)
    obtain ⟨hpos, herrd, hinf'⟩ := ho3 hnre
    have hne : ¬ (r.err = .streamEnd) := by
      rcases herrd with h | h <;> simp [h]
    have hposk : r.pos = k := by omega
    have hav : 0 < r.availIn := ho5 (by omega) (by omega)
    rw [if_neg hne]
    rw [if_neg (by rcases herrd with h | h <;> simp [h] :
      ¬ (¬ r.err = .ok ∧ ¬ r.err = .bufError))]
    simp only [save_unconsumed_input]
    rw [if_neg (fun h => hne h.1 : ¬ (r.err = .streamEnd ∧ 0 < r.availIn))]
    rw [if_pos (Or.inl hav : 0 < (st, r.availIn).2
      ∨ (st, r.availIn).1.unconsumed_tail ≠ [])]
    rw [ho1, hposk]
    refine ⟨_, rfl, fun hle => absurd hle (by omega), fun _ => ⟨rfl, hinf', rfl, rfl⟩⟩

/-- Feeding `unconsumed_tail` back into `decompress` with the same cap `k`
eventually emits the entire remaining payload (one `≥ 1`-byte step per call,
so fuel exceeding the payload length suffices). -/
theorem refeed_reconstruct (k : Nat) (h1 : 1 ≤ k) (hku : k < U32MAX) :
    ∀ fuel (st : DecompSt), st.eof = false → st.inf = InfState.mk false →
      (payloadOf st.unconsumed_tail).length < st.unconsumed_tail.length →
      (payloadOf st.unconsumed_tail).length < fuel →
      refeed_tail (k : Int) fuel st = payloadOf st.unconsumed_tail := by
  intro fuel
  induction fuel with
  | zero =>
    intro st heof hinf hmark hfuel
    exact absurd hfuel (by omega)
  | succ f ih =>
    intro st heof hinf hmark hfuel
    obtain ⟨st', hcall, heof', hrest⟩ :=
      decompress_call_spec st st.unconsumed_tail k h1 hku hinf hmark
    obtain ⟨Q, hQ⟩ : ∃ Q, payloadOf st.unconsumed_tail = Q := ⟨_, rfl⟩
    rw [hQ] at hcall hmark hfuel ⊢
    simp only [refeed_tail]
    rw [if_neg (by rw [heof]; simp : ¬ st.eof = true)]
    rw [hcall]
    dsimp only
    by_cases hQk : Q.length ≤ k
    · rw [refeed_eof (k : Int) f st' (heof' (by rw [hQ]; omega))]
      have hmin : min Q.length k = Q.length := by omega
      rw [hmin, List.take_length, List.append_nil]
    · obtain ⟨he1, he2, he3, he4⟩ := hrest (by rw [hQ]; omega)
      have htail' : payloadOf st'.unconsumed_tail = Q.drop k := by
        rw [he3, payload_drop st.unconsumed_tail k (by rw [hQ]; omega), hQ]
      have hih := ih st' (by rw [he1, heof]) he2
        (by
          rw [htail', he3]
          simp only [List.length_drop]
          omega)
        (by
          rw [htail']
          simp only [List.length_drop]
          omega)
      rw [hih, htail']
      have hmin : min Q.length k = k := by omega
      rw [hmin, List.take_append_drop]

/-! ## C1: capped decompression and refeeding the unconsumed tail -/

/--
C1 (amended): for a live `Decompress` object and a complete compressed
stream `data`, `decompress(data, k)` with `0 < k < 2^32 - 1` returns at most
`k` bytes, namely the first `min |payload| k` bytes of the decompressed
payload; when the cap is reached before all input is decompressed the
remaining unread input bytes are stored in `unconsumed_tail` (non-empty) and
no error is raised; and repeated `decompress` calls on the previous call's
`unconsumed_tail` with empty further input and the same cap reconstruct the
full decompressed output with no gaps or duplicated bytes.  (The claim's
literal reading — repeated calls passing empty `data` — fails: an
empty-input call clears `unconsumed_tail` without producing the missing
bytes, see the counterexample; the caller must feed `unconsumed_tail` back
in, which is what the claim's `repeated calls ... eventually reconstruct`
can only mean in the code.)
-/
theorem decompress_max_length_roundtrip (ud data : List Nat) (k : Nat)
    (h1 : 1 ≤ k) (hku : k < U32MAX)
    (hmark : (payloadOf data).length < data.length) :
    ∃ out st',
      zlib_Decompress_decompress_impl ⟨⟨false⟩, ud, [], false⟩ data (k : Int)
        = .ok (out, st')
      ∧ out = (payloadOf data).take (min (payloadOf data).length k)
      ∧ out.length ≤ k
      ∧ (k < (payloadOf data).length →
          st'.eof = false ∧ st'.unconsumed_tail = data.drop k
          ∧ st'.unconsumed_tail ≠ [])
      ∧ out ++ refeed_tail (k : Int) ((payloadOf data).length + 1) st'
          = payloadOf data := by
  obtain ⟨st', hcall, heof', hrest⟩ :=
    decompress_call_spec ⟨⟨false⟩, ud, [], false⟩ data k h1 hku rfl hmark
  refine ⟨_, st', hcall, rfl, ?_, ?_, ?_⟩
  · simp only [List.length_take]
    omega
  · intro hlt
    obtain ⟨he1, he2, he3, he4⟩ := hrest hlt
    refine ⟨by rw [he1], he3, ?_⟩
    rw [he3]
    have hlen : 0 < (data.drop k).length := by
      simp only [List.length_drop]
      omega
    exact List.ne_nil_of_length_pos hlen
  · by_cases hQk : (payloadOf data).length ≤ k
    · rw [refeed_eof (k : Int) ((payloadOf data).length + 1) st' (heof' hQk)]
      have hmin : min (payloadOf data).length k = (payloadOf data).length := by
        omega
      rw [hmin, List.take_length, List.append_nil]
    · obtain ⟨he1, he2, he3, he4⟩ := hrest (by omega)
      have htail' : payloadOf st'.unconsumed_tail = (payloadOf data).drop k := by
        rw [he3, payload_drop data k (by omega)]
      have hre := refeed_reconstruct k h1 hku ((payloadOf data).length + 1) st'
        (by rw [he1]) he2
        (by
          rw [htail', he3]
          simp only [List.length_drop]
          omega)
        (by
          rw [htail']
          simp only [List.length_drop]
          omega)
      rw [hre, htail']
      have hmin : min (payloadOf data).length k = k := by omega
      rw [hmin, List.take_append_drop]

/-- Witness for C1 at `data = [1,2,3,255]`, `k = 2`. -/
theorem decompress_max_length_roundtrip_witness :
    ∃ out st',
      zlib_Decompress_decompress_impl ⟨⟨false⟩, [], [], false⟩ [1, 2, 3, 255]
          ((2 : Nat) : Int)
        = .ok (out, st')
      ∧ out = (payloadOf [1, 2, 3, 255]).take
          (min (payloadOf [1, 2, 3, 255]).length 2)
      ∧ out.length ≤ 2
      ∧ (2 < (payloadOf [1, 2, 3, 255]).length →
          st'.eof = false ∧ st'.unconsumed_tail = [1, 2, 3, 255].drop 2
          ∧ st'.unconsumed_tail ≠ [])
      ∧ out ++ refeed_tail ((2 : Nat) : Int)
            ((payloadOf [1, 2, 3, 255]).length + 1) st'
          = payloadOf [1, 2, 3, 255] :=
  decompress_max_length_roundtrip [] [1, 2, 3, 255] 2 (by norm_num)
    (by norm_num [U32MAX]) (by decide)

/--
C10: in the one-shot `decompress`, a negative initial buffer size is
rejected with `ValueError` before any codec work is done; `bufsize = 0` is
not an error — it is replaced by `1` and yields literally the same
computation — and any other positive initial size gives the same result as
`bufsize = 1`.
-/
theorem zlib_decompress_bufsize (data : List Nat) (b : Int) :
    (b < 0 → zlib_decompress_impl data 15 b = .error .valueError)
    ∧ zlib_decompress_impl data 15 0 = zlib_decompress_impl data 15 1
    ∧ (0 < b → b ≤ (PY_SSIZE_T_MAX : Int) →
        zlib_decompress_impl data 15 b = zlib_decompress_impl data 15 1) := by
  have hPY : PY_SSIZE_T_MAX = 9223372036854775807 := by norm_num [PY_SSIZE_T_MAX]
  refine ⟨?_, ?_, ?_⟩
  · intro hb
    simp only [zlib_decompress_impl]
    rw [if_pos hb]
  · simp only [zlib_decompress_impl]
    norm_num
  · intro hb hbmax
    rw [hPY] at hbmax
    have hb1 : 1 ≤ b.toNat := by omega
    have hb2 : b.toNat ≤ PY_SSIZE_T_MAX := by omega
    simp only [zlib_decompress_impl]
    rw [if_neg (by omega : ¬ b < 0), if_neg (by omega : ¬ (1 : Int) < 0),
      if_neg (by omega : ¬ b = 0), if_neg (by omega : ¬ (1 : Int) = 0)]
    simp only [Int.toNat_one]
    obtain ⟨rb, hrb⟩ : ∃ r, dd_outer data PY_SSIZE_T_MAX (data.length + 1)
        ⟨false⟩ 0 data.length none b.toNat .ok = r := ⟨_, rfl⟩
    obtain ⟨r1, hr1⟩ : ∃ r, dd_outer data PY_SSIZE_T_MAX (data.length + 1)
        ⟨false⟩ 0 data.length none 1 .ok = r := ⟨_, rfl⟩
    rw [hrb, hr1]
    have hob := dd_outer_spec data PY_SSIZE_T_MAX (data.length + 1) ⟨false⟩ 0
      data.length none b.toNat .ok [] (Or.inl ⟨rfl, rfl⟩) rfl
      (by simp only [List.length_nil]; omega)
      (by simp only [List.length_nil]; omega) hb2 hb1 (by omega) (by omega)
      (Or.inl rfl)
    have ho1 := dd_outer_spec data PY_SSIZE_T_MAX (data.length + 1) ⟨false⟩ 0
      data.length none 1 .ok [] (Or.inl ⟨rfl, rfl⟩) rfl
      (by simp only [List.length_nil]; omega)
      (by simp only [List.length_nil]; omega) (by omega) (by omega) (by omega)
      (by omega) (Or.inl rfl)
    rw [hrb] at hob
    rw [hr1] at ho1
    simp only [DDOuterSpec] at hob ho1
    have hdd : (data.drop 0).take data.length = data := by simp
    rw [hdd] at hob ho1
    simp only [List.nil_append, List.length_nil, Nat.sub_zero, Nat.zero_add]
      at hob ho1
    obtain ⟨hb1', hb2', hb3', hb4', hb5', hb6'⟩ := hob
    obtain ⟨hc1', hc2', hc3', hc4', hc5', hc6'⟩ := ho1
    by_cases hre : (payloadOf data).length < data.length
        ∧ (payloadOf data).length ≤ PY_SSIZE_T_MAX
        ∧ ((payloadOf data).length < PY_SSIZE_T_MAX
           ∨ ¬ (U32MAX ∣ (payloadOf data).length))
    · obtain ⟨hpb, heb, hib⟩ := hb2' hre
      obtain ⟨hpc, hec, hic⟩ := hc2' hre
      by_cases hcapq : min (payloadOf data).length PY_SSIZE_T_MAX
          = PY_SSIZE_T_MAX
      · rw [if_pos (hb4'.mpr hcapq), if_pos (hc4'.mpr hcapq)]
      · rw [if_neg (fun h => hcapq (hb4'.mp h)),
          if_neg (fun h => hcapq (hc4'.mp h)),
          if_neg (not_not_intro heb), if_neg (not_not_intro hec),
          hb1', hc1']
    · obtain ⟨hpb, heb, hib⟩ := hb3' hre
      obtain ⟨hpc, hec, hic⟩ := hc3' hre
      have hneb : rb.err ≠ .streamEnd := by
        rcases heb with h | h <;> simp [h]
      have hnec : r1.err ≠ .streamEnd := by
        rcases hec with h | h <;> simp [h]
      by_cases hcapq : min (payloadOf data).length PY_SSIZE_T_MAX
          = PY_SSIZE_T_MAX
      · rw [if_pos (hb4'.mpr hcapq), if_pos (hc4'.mpr hcapq)]
      · rw [if_neg (fun h => hcapq (hb4'.mp h)),
          if_neg (fun h => hcapq (hc4'.mp h)),
          if_pos hneb, if_pos hnec]

/-- Witness for C10 at `data = [7, 255]`, `b = -1` and `b = 3`. -/
theorem zlib_decompress_bufsize_witness :
    (zlib_decompress_impl [7, 255] 15 (-1) = .error .valueError)
    ∧ zlib_decompress_impl [7, 255] 15 0 = zlib_decompress_impl [7, 255] 15 1
    ∧ zlib_decompress_impl [7, 255] 15 3 = zlib_decompress_impl [7, 255] 15 1 :=
  ⟨(zlib_decompress_bufsize [7, 255] (-1)).1 (by norm_num),
   (zlib_decompress_bufsize [7, 255] 0).2.1,
   (zlib_decompress_bufsize [7, 255] 3).2.2 (by norm_num)
     (by norm_num [PY_SSIZE_T_MAX])⟩
